import Mathlib

/-!
# gombine: combining images bottom-wise or right-wise

A shallow embedding of `main.go` of gombine and of the parts of the Go
standard library it calls (`image`, `image/color`, `image/draw`, `os`).

* Go `int` is the 64-bit signed integer of the usual platforms: every
  addition and subtraction of the program and of the library functions it
  calls is reduced by `wrapInt`, which wraps around at `2^63`.
* `image.NewRGBA` panics when the size of the pixel buffer does not fit an
  `int`, and the allocation itself can fail; both end the run, which the
  results record in the field `panicked`.
* The `uint32`/`uint8` arithmetic of `image/draw` is modelled on `Nat` with
  explicit reductions modulo `2^32` and `2^8`.
* The file system and the calls made to the operating system are an explicit
  `World` value that is threaded through the functions which perform I/O.
* `log.Fatal` is modelled as an early return carrying the fatal message.
-/

namespace Gombine

/-! ## Go `int` -/

/-- Go `int` on a 64-bit platform: the value that an arithmetic result is
reduced to when it leaves the range `[-2^63, 2^63)` of the type. -/
def wrapInt (x : Int) : Int := (x + 2 ^ 63) % 2 ^ 64 - 2 ^ 63

/-! ## Package `image`: points and rectangles -/

/-- Go `image.Point`. -/
structure Point where
  X : Int
  Y : Int
deriving DecidableEq, Repr

/-- Go `image.Rectangle`: contains the points with `Min.X <= X < Max.X` and
`Min.Y <= Y < Max.Y`. -/
structure Rectangle where
  Min : Point
  Max : Point
deriving DecidableEq, Repr

/-- Go `image.ZR`, the zero rectangle. -/
def ZR : Rectangle := ⟨⟨0, 0⟩, ⟨0, 0⟩⟩

/-- Go `image.Rect`: the rectangle with the given corners, the coordinates
being swapped where needed so that the result is well formed. -/
def Rect (x0 y0 x1 y1 : Int) : Rectangle :=
  ⟨⟨if x0 > x1 then x1 else x0, if y0 > y1 then y1 else y0⟩,
   ⟨if x0 > x1 then x0 else x1, if y0 > y1 then y0 else y1⟩⟩

/-- Go `Point.Sub`. -/
def Point.Sub (p q : Point) : Point := ⟨wrapInt (p.X - q.X), wrapInt (p.Y - q.Y)⟩

/-- Go `Rectangle.Empty`. -/
def Rectangle.Empty (r : Rectangle) : Bool :=
  decide (r.Min.X ≥ r.Max.X) || decide (r.Min.Y ≥ r.Max.Y)

/-- Go `Rectangle.Add`: translation by a point. -/
def Rectangle.Add (r : Rectangle) (p : Point) : Rectangle :=
  ⟨⟨wrapInt (r.Min.X + p.X), wrapInt (r.Min.Y + p.Y)⟩,
   ⟨wrapInt (r.Max.X + p.X), wrapInt (r.Max.Y + p.Y)⟩⟩

/-- Go `Rectangle.Intersect`: the largest rectangle contained in both, or
`ZR` when the two do not overlap. -/
def Rectangle.Intersect (r s : Rectangle) : Rectangle :=
  let t : Rectangle :=
    ⟨⟨if r.Min.X < s.Min.X then s.Min.X else r.Min.X,
      if r.Min.Y < s.Min.Y then s.Min.Y else r.Min.Y⟩,
     ⟨if r.Max.X > s.Max.X then s.Max.X else r.Max.X,
      if r.Max.Y > s.Max.Y then s.Max.Y else r.Max.Y⟩⟩
  if t.Empty then ZR else t

/-- Go `Rectangle.Overlaps`: the two rectangles have a non-empty
intersection. -/
def Rectangle.Overlaps (r s : Rectangle) : Bool :=
  !r.Empty && !s.Empty &&
    decide (r.Min.X < s.Max.X) && decide (s.Min.X < r.Max.X) &&
    decide (r.Min.Y < s.Max.Y) && decide (s.Min.Y < r.Max.Y)

/-- Go `Rectangle.In`: every point of `r` is in `s`. -/
def Rectangle.In (r s : Rectangle) : Bool :=
  if r.Empty then true
  else
    decide (s.Min.X ≤ r.Min.X) && decide (r.Max.X ≤ s.Max.X) &&
      decide (s.Min.Y ≤ r.Min.Y) && decide (r.Max.Y ≤ s.Max.Y)

/-- Go `Point.In`: the point lies in the rectangle. -/
def Point.In (p : Point) (r : Rectangle) : Bool :=
  decide (r.Min.X ≤ p.X) && decide (p.X < r.Max.X) &&
    decide (r.Min.Y ≤ p.Y) && decide (p.Y < r.Max.Y)

/-- Go `Rectangle.Dx`, the width. -/
def Rectangle.Dx (r : Rectangle) : Int := wrapInt (r.Max.X - r.Min.X)

/-- Go `Rectangle.Dy`, the height. -/
def Rectangle.Dy (r : Rectangle) : Int := wrapInt (r.Max.Y - r.Min.Y)

/-! ## Package `image/color` and the images -/

/-- The four values returned by Go `color.Color.RGBA()`: alpha-premultiplied
red, green, blue and alpha, each a `uint32` that a well-behaved colour keeps
within `[0, 0xffff]`. -/
structure Color where
  r : Nat
  g : Nat
  b : Nat
  a : Nat
deriving DecidableEq, Repr

/-- Go `color.RGBA`: one pixel of an `image.RGBA`, four `uint8` values. -/
structure ColorRGBA where
  R : Nat
  G : Nat
  B : Nat
  A : Nat
deriving DecidableEq, Repr

/-- The zero value `color.RGBA{}`: fully transparent. -/
def ColorRGBA.zero : ColorRGBA := ⟨0, 0, 0, 0⟩

/-- A colour returned by `RGBA()` respects the documented range. -/
def Color.Valid (c : Color) : Prop :=
  c.r ≤ 0xffff ∧ c.g ≤ 0xffff ∧ c.b ≤ 0xffff ∧ c.a ≤ 0xffff

/-- Go `color.RGBAModel.Convert`: each 16-bit channel is reduced to its high
byte, `uint8(r >> 8)`. -/
def rgbaModel (c : Color) : ColorRGBA :=
  ⟨(c.r >>> 8) % 256, (c.g >>> 8) % 256, (c.b >>> 8) % 256, (c.a >>> 8) % 256⟩

/-- Go `image.Image`, the read-only interface of a decoded picture: its
bounds and the colour `At(x, y).RGBA()` of each pixel. -/
structure Image where
  Bounds : Rectangle
  At : Int → Int → Color

/-- Go `*image.RGBA`, the canvas: its bounds `Rect` and its pixel store,
addressed by coordinates instead of by offset into `Pix`. -/
structure RGBA where
  Rect : Rectangle
  Pix : Int → Int → ColorRGBA

/-- Go `(*image.RGBA).RGBAAt`: the stored pixel, or the zero colour outside
the bounds. -/
def RGBA.RGBAAt (p : RGBA) (x y : Int) : ColorRGBA :=
  if (Point.mk x y).In p.Rect then p.Pix x y else ColorRGBA.zero

/-! ## The program: data and errors -/

/-- The struct `imageData`: an input image and its details. -/
structure imageData where
  img : Image
  width : Int
  height : Int
  path : String

/-- The error values that flow through the program. -/
inductive Error where
  /-- Built by `errors.New("Total Height and Width cannot be 0")`. -/
  | emptyDim
  /-- Built by `errors.New("Please choose bottom or right for side")`. -/
  | unsupportedSide
  /-- Built by `errors.New("Please choose jpg or png for format")`. -/
  | unsupportedFormat
  /-- An error of package `os` for the operation `op` on the file `path`. -/
  | os (op path : String)
  /-- An error reported by an image decoder or encoder. -/
  | codec (msg : String)
deriving DecidableEq, Repr

/-- The text of the errors the program itself creates. -/
def Error.text : Error → String
  | .emptyDim => "Total Height and Width cannot be 0"
  | .unsupportedSide => "Please choose bottom or right for side"
  | .unsupportedFormat => "Please choose jpg or png for format"
  | .os op path => op ++ " " ++ path
  | .codec msg => msg

/-! ## The operating system and the codecs -/

/-- The content of a file, byte by byte. -/
abbrev Bytes := List Nat

/-- An entry of the file system: a directory or a regular file. -/
inductive Node where
  | dir
  | file (data : Bytes)
deriving DecidableEq, Repr

/-- A call made to the operating system. -/
inductive Call where
  | stat (path : String)
  | openFile (path : String)
  | create (path : String)
  | write (path : String) (data : Bytes)
deriving DecidableEq, Repr

/-- The state outside the program: the entries of the file system by path
and the calls issued so far, oldest first. -/
structure World where
  nodes : List (String × Node)
  log : List Call
deriving DecidableEq, Repr

/-- What the program takes from its surroundings and does not decide itself:
the permissions of the file system, the memory that can be had, and the
image codecs of the standard library. -/
structure Env where
  /-- The path may be opened for reading. -/
  canOpen : String → Bool
  /-- The path may be created or truncated for writing. -/
  canCreate : String → Bool
  /-- The runtime can provide a byte slice of the given length, as asked for
  by `make([]uint8, n)`. -/
  canAlloc : Int → Bool
  /-- Go `image.Decode` on the content of a file: the image, or the text of
  the decoder's error. -/
  decode : Bytes → Except String Image
  /-- Go `image.DecodeConfig` on the content of a file: `(Height, Width)`,
  or the text of the decoder's error. -/
  decodeConfig : Bytes → Except String (Int × Int)
  /-- Go `png.Encode`: the bytes written and the error, if any. -/
  pngEncode : RGBA → Bytes × Option String
  /-- Go `jpeg.Encode` with the given quality: the bytes written and the
  error, if any. -/
  jpegEncode : Nat → RGBA → Bytes × Option String

/-- The entry stored at a path. -/
def World.lookup (w : World) (path : String) : Option Node :=
  w.nodes.lookup path

/-- Replace the entry at a path, or add it when the path is new. -/
def setNode : List (String × Node) → String → Node → List (String × Node)
  | [], p, n => [(p, n)]
  | (q, k) :: rest, p, n =>
    if q = p then (p, n) :: rest else (q, k) :: setNode rest p n

/-- Go `os.Stat` followed by `IsDir`: fails when nothing has that path. -/
def osStat (w : World) (path : String) : Except Error Bool × World :=
  let w1 : World := ⟨w.nodes, w.log ++ [Call.stat path]⟩
  match w.lookup path with
  | none => (.error (Error.os "stat" path), w1)
  | some Node.dir => (.ok true, w1)
  | some (Node.file _) => (.ok false, w1)

/-- Go `os.Open`: the entry opened for reading. -/
def osOpen (env : Env) (w : World) (path : String) : Except Error Node × World :=
  let w1 : World := ⟨w.nodes, w.log ++ [Call.openFile path]⟩
  match w.lookup path with
  | none => (.error (Error.os "open" path), w1)
  | some n => if env.canOpen path then (.ok n, w1) else (.error (Error.os "open" path), w1)

/-- Go `os.Create`: the file is created, or truncated when it exists; fails
on a directory and where writing is not permitted. -/
def osCreate (env : Env) (w : World) (path : String) : Option Error × World :=
  let log1 := w.log ++ [Call.create path]
  if env.canCreate path = false ∨ w.lookup path = some Node.dir then
    (some (Error.os "open" path), ⟨w.nodes, log1⟩)
  else
    (none, ⟨setNode w.nodes path (Node.file []), log1⟩)

/-- Writing bytes at the end of an open file. -/
def osWrite (w : World) (path : String) (data : Bytes) : World :=
  match w.lookup path with
  | some (Node.file old) =>
    ⟨setNode w.nodes path (Node.file (old ++ data)), w.log ++ [Call.write path data]⟩
  | _ => ⟨w.nodes, w.log ++ [Call.write path data]⟩

/-- Go `image.Decode` on an opened entry: the image, or the error of the
decoder.  Nothing can be read from a directory, so no format is
recognised there. -/
def Decode (env : Env) : Node → Except Error Image
  | .dir => .error (Error.codec "image: unknown format")
  | .file data =>
    match env.decode data with
    | .error msg => .error (Error.codec msg)
    | .ok img => .ok img

/-- Go `image.DecodeConfig` on an opened entry: the pair
`(config.Height, config.Width)`, or the error of the decoder. -/
def DecodeConfig (env : Env) : Node → Except Error (Int × Int)
  | .dir => .error (Error.codec "image: unknown format")
  | .file data =>
    match env.decodeConfig data with
    | .error msg => .error (Error.codec msg)
    | .ok config => .ok config

/-! ## Allocation of the canvas -/

/-- The function `mul3NonNeg` of package `image`: `x*y*z`, or `-1` when an
argument is negative or the product does not fit an `int`.  The two 64-bit
multiplications report an overflow in their high word; the last conversion
to `int` turns a product of `2^63` or more negative. -/
def mul3NonNeg (x y z : Int) : Int :=
  if x < 0 ∨ y < 0 ∨ z < 0 then -1
  else if x * y ≥ 2 ^ 64 then -1
  else if x * y * z ≥ 2 ^ 64 then -1
  else if wrapInt (x * y * z) < 0 then -1
  else wrapInt (x * y * z)

/-- The function `pixelBufferLength` of package `image`, before its panic:
the length of the pixel buffer of an image with these bounds, negative when
the bounds are huge or negative. -/
def pixelBufferLength (bytesPerPixel : Int) (r : Rectangle) : Int :=
  mul3NonNeg bytesPerPixel r.Dx r.Dy

/-- Go `image.NewRGBA`: a canvas with the given bounds whose pixel buffer is
freshly allocated, hence all zero.  `none` stands for the end of the run: the
panic of `pixelBufferLength` on a negative length ("huge or negative
dimensions"), or a buffer that the runtime cannot provide. -/
def NewRGBA (env : Env) (r : Rectangle) : Option RGBA :=
  if pixelBufferLength 4 r < 0 then none
  else if env.canAlloc (pixelBufferLength 4 r) then some ⟨r, fun _ _ => ColorRGBA.zero⟩
  else none

/-! ## Package `image/draw` -/

/-- Reduction of a natural number to a Go `uint32`. -/
def u32 (n : Nat) : Nat := n % 2 ^ 32

/-- Reduction of a natural number to a Go `uint8`. -/
def u8 (n : Nat) : Nat := n % 2 ^ 8

/-- The constant `m = 1<<16 - 1` of `image/draw`: the maximum colour value. -/
def m : Nat := 65535

/-- One channel of the `Over` branch of `drawRGBA`, with the nil mask
(`ma = m`): `uint8((d*a + s*ma) / m >> 8)` in `uint32` arithmetic. -/
def overChannel (d s a : Nat) : Nat :=
  u8 ((u32 (u32 (d * a) + u32 (s * m)) / m) >>> 8)

/-- One pixel of the `Over` branch of `drawRGBA` with the nil mask: the
factor is `a = (m - sa*ma/m) * 0x101`, then each channel is blended. -/
def overPixel (d : ColorRGBA) (s : Color) : ColorRGBA :=
  let a := u32 (u32 (m + 2 ^ 32 - u32 (s.a * m) / m) * 0x101)
  ⟨overChannel d.R s.r a, overChannel d.G s.g a,
   overChannel d.B s.b a, overChannel d.A s.a a⟩

/-- One pixel of the `Src` branch of `drawRGBA` with the nil mask,
`uint8(s*ma/m >> 8)` per channel: the destination is replaced. -/
def srcPixel (s : Color) : ColorRGBA :=
  ⟨u8 ((u32 (s.r * m) / m) >>> 8), u8 ((u32 (s.g * m) / m) >>> 8),
   u8 ((u32 (s.b * m) / m) >>> 8), u8 ((u32 (s.a * m) / m) >>> 8)⟩

/-- The function `clip` of `image/draw` with the nil mask: the rectangle is
cut down to the destination bounds and to the source bounds (moved to the
destination), and the source point follows the rectangle's origin. -/
def clip (dst : RGBA) (r : Rectangle) (src : Image) (sp : Point) :
    Rectangle × Point :=
  let orig := r.Min
  let r1 := r.Intersect dst.Rect
  let r2 := r1.Intersect (src.Bounds.Add (orig.Sub sp))
  let dx := wrapInt (r2.Min.X - orig.X)
  let dy := wrapInt (r2.Min.Y - orig.Y)
  (r2, ⟨wrapInt (sp.X + dx), wrapInt (sp.Y + dy)⟩)

/-- Go `draw.Draw(dst, r, src, sp, draw.Over)`, following `DrawMask` and its
general path `drawRGBA`: after clipping, every pixel of the rectangle is
blended with the source pixel that has the same offset from `sp`; all other
pixels are left alone. -/
def Draw (dst : RGBA) (r : Rectangle) (src : Image) (sp : Point) : RGBA :=
  let c := clip dst r src sp
  if c.1.Empty then dst
  else
    ⟨dst.Rect, fun x y =>
      if (Point.mk x y).In c.1 then
        overPixel (dst.Pix x y)
          (src.At (wrapInt (c.2.X + wrapInt (x - c.1.Min.X)))
            (wrapInt (c.2.Y + wrapInt (y - c.1.Min.Y))))
      else dst.Pix x y⟩

/-! ## Dimension aggregation -/

/-- The function `getTotalDim`: the sums of the heights and of the widths
of all input images, with an error when both sums are zero. -/
def getTotalDim (images : List imageData) : Int × Int × Option Error :=
  let hw := images.foldl
    (fun (acc : Int × Int) imd =>
      (wrapInt (acc.1 + imd.height), wrapInt (acc.2 + imd.width))) (0, 0)
  if hw.1 = 0 ∧ hw.2 = 0 then
    (hw.1, hw.2, some Error.emptyDim)
  else
    (hw.1, hw.2, none)

/-- The function `getMaxDim`: the largest height and the largest width
among the input images, both starting from zero. -/
def getMaxDim (images : List imageData) : Int × Int × Option Error :=
  let mx := images.foldl
    (fun (acc : Int × Int) imd =>
      (if imd.height > acc.1 then imd.height else acc.1,
       if imd.width > acc.2 then imd.width else acc.2)) (0, 0)
  (mx.1, mx.2, none)

/-! ## Composition -/

/-- The variables of `makeImage` that its loops update: the canvas `img`,
the cursor `posx`, `posy`, and (as a record of what happened) the rectangles
handed to `draw.Draw`, oldest first. -/
structure Painter where
  img : RGBA
  posx : Int
  posy : Int
  drawn : List Rectangle

/-- The body of the loop of the case `"bottom"`. -/
def bottomStep (s : Painter) (imd : imageData) : Painter :=
  let r := Rect s.posx s.posy (wrapInt (s.posx + imd.width)) (wrapInt (s.posy + imd.height))
  ⟨Draw s.img r imd.img ⟨0, 0⟩, s.posx, wrapInt (s.posy + imd.height), s.drawn ++ [r]⟩

/-- The body of the loop of the case `"right"`. -/
def rightStep (s : Painter) (imd : imageData) : Painter :=
  let r := Rect s.posx s.posy (wrapInt (s.posx + imd.width)) (wrapInt (s.posy + imd.height))
  ⟨Draw s.img r imd.img ⟨0, 0⟩, wrapInt (s.posx + imd.width), s.posy, s.drawn ++ [r]⟩

/-- How the `switch side` of `makeImage` ends. -/
inductive Painted where
  /-- The default case: neither "bottom" nor "right". -/
  | badSide
  /-- The run ended in `image.NewRGBA`. -/
  | panicked
  /-- The canvas was allocated and the loop ran to its end. -/
  | done (s : Painter)

/-- The `switch side` of `makeImage`: the canvas is allocated and the images
are painted, or nothing is done for any other side. -/
def paint (env : Env) (th tw maxh maxw : Int) (images : List imageData) (side : String) :
    Painted :=
  if side = "bottom" then
    match NewRGBA env (Rect 0 0 maxw th) with
    | none => Painted.panicked
    | some img => Painted.done (images.foldl bottomStep ⟨img, 0, 0, []⟩)
  else if side = "right" then
    match NewRGBA env (Rect 0 0 tw maxh) with
    | none => Painted.panicked
    | some img => Painted.done (images.foldl rightStep ⟨img, 0, 0, []⟩)
  else
    Painted.badSide

/-- What a call of `makeImage` leaves behind: the error it returns, the
canvas `img` (`none` while it is still nil), the rectangles it painted into,
the state of the world, and whether the run ended in a panic instead of a
return. -/
structure MakeResult where
  err : Option Error
  img : Option RGBA
  drawn : List Rectangle
  world : World
  panicked : Bool

/-- The function `makeImage`: paints the combined image and writes it to
`outfile` in the given format. -/
def makeImage (env : Env) (w : World) (th tw maxh maxw : Int)
    (images : List imageData) (format side outfile : String) : MakeResult :=
  match paint env th tw maxh maxw images side with
  | Painted.badSide => ⟨some Error.unsupportedSide, none, [], w, false⟩
  | Painted.panicked => ⟨none, none, [], w, true⟩
  | Painted.done s =>
    match osCreate env w outfile with
    | (some e, w1) => ⟨some e, some s.img, s.drawn, w1, false⟩
    | (none, w1) =>
      if format = "png" then
        let res := env.pngEncode s.img
        ⟨res.2.map Error.codec, some s.img, s.drawn, osWrite w1 outfile res.1, false⟩
      else if format = "jpg" then
        let res := env.jpegEncode 90 s.img
        ⟨res.2.map Error.codec, some s.img, s.drawn, osWrite w1 outfile res.1, false⟩
      else
        ⟨some Error.unsupportedFormat, some s.img, s.drawn, w1, false⟩

/-- What `log.Fatal` prints before the process exits with status 1. -/
inductive Fatal where
  /-- From `log.Fatal(err)`. -/
  | err (e : Error)
  /-- From `log.Fatal("Unable to open file", filename)`. -/
  | unableToOpen (filename : String)
  /-- From `log.Fatal("Unable to decode ", filename)`. -/
  | unableToDecode (filename : String)
  /-- From `log.Fatal("No files given")`. -/
  | noFilesGiven
deriving DecidableEq, Repr

/-- The text printed by `log.Fatal`. -/
def Fatal.text : Fatal → String
  | .err e => e.text
  | .unableToOpen filename => "Unable to open file" ++ filename
  | .unableToDecode filename => "Unable to decode " ++ filename
  | .noFilesGiven => "No files given"

/-- What a call of `processImages` leaves behind: the fatal message if the
process was stopped, the call of `makeImage` if it was reached, the state of
the world, and whether the run ended in a panic. -/
structure ProcResult where
  fatal : Option Fatal
  made : Option MakeResult
  world : World
  panicked : Bool

/-- The function `processImages`: computes the total and the maximal
dimensions, then calls `makeImage`; every error is fatal. -/
def processImages (env : Env) (w : World) (images : List imageData)
    (format side outfile : String) : ProcResult :=
  match getTotalDim images with
  | (_, _, some e) => ⟨some (Fatal.err e), none, w, false⟩
  | (th, tw, none) =>
    match getMaxDim images with
    | (_, _, some e) => ⟨some (Fatal.err e), none, w, false⟩
    | (maxh, maxw, none) =>
      let r := makeImage env w th tw maxh maxw images format side outfile
      ⟨r.err.map Fatal.err, some r, r.world, r.panicked⟩

/-! ## Loading and the entry point -/

/-- The function `getDim`: the height and the width of the image stored at
`imd.path`, read from its header; `(-1, -1)` and the error on failure. -/
def getDim (env : Env) (w : World) (imd : imageData) :
    (Int × Int × Option Error) × World :=
  match osOpen env w imd.path with
  | (.error e, w1) => ((-1, -1, some e), w1)
  | (.ok f, w1) =>
    match DecodeConfig env f with
    | .error e => ((-1, -1, some e), w1)
    | .ok config => ((config.1, config.2, none), w1)

/-- The function `getImageData`: the `imageData` of a decoded image and its
file name, with the dimensions obtained from `getDim`. -/
def getImageData (env : Env) (w : World) (img : Image) (filename : String) :
    (imageData × Option Error) × World :=
  let imd : imageData := ⟨img, 0, 0, filename⟩
  match getDim env w imd with
  | ((h, wd, err), w1) => ((⟨imd.img, wd, h, imd.path⟩, err), w1)

/-- The loop of `main` over `flag.Args()`: each name that is not a directory
is opened, decoded and appended to `images`; the first failure is fatal. -/
def loadImages (env : Env) :
    List String → World → List imageData → Except Fatal (List imageData) × World
  | [], w, images => (.ok images, w)
  | filename :: rest, w, images =>
    match osStat w filename with
    | (.error e, w1) => (.error (Fatal.err e), w1)
    | (.ok true, w1) => loadImages env rest w1 images
    | (.ok false, w1) =>
      match osOpen env w1 filename with
      | (.error _, w2) => (.error (Fatal.unableToOpen filename), w2)
      | (.ok fimg, w2) =>
        match Decode env fimg with
        | .error _ => (.error (Fatal.unableToDecode filename), w2)
        | .ok img =>
          match getImageData env w2 img filename with
          | ((_, some e), w3) => (.error (Fatal.err e), w3)
          | ((imd, none), w3) => loadImages env rest w3 (images ++ [imd])

/-- What a run of the program leaves behind: the fatal message, if any, the
state of the world, and whether the run ended in a panic. -/
structure MainResult where
  fatal : Option Fatal
  world : World
  panicked : Bool

/-- The function `main`, after `flag.Parse()`: `format`, `side` and
`outfile` are the values of the flags and `args` is `flag.Args()`. -/
def main (env : Env) (w : World) (format side outfile : String)
    (args : List String) : MainResult :=
  if args.length > 0 ∧ args.length < 10 then
    match loadImages env args w [] with
    | (.error f, w1) => ⟨some f, w1, false⟩
    | (.ok images, w1) =>
      let r := processImages env w1 images format side outfile
      ⟨r.fatal, r.world, r.panicked⟩
  else
    ⟨some Fatal.noFilesGiven, w, false⟩

/-! ## Vocabulary of the statements -/

/-- The value is one that a Go `int` can hold. -/
def IsInt (x : Int) : Prop := -2 ^ 63 ≤ x ∧ x < 2 ^ 63

/-- The sum of the heights of a list of images, as a number. -/
def sumHeights (images : List imageData) : Int := (images.map imageData.height).sum

/-- The sum of the widths of a list of images, as a number. -/
def sumWidths (images : List imageData) : Int := (images.map imageData.width).sum

/-- Every image of the list has a positive height and a positive width. -/
def PositiveDims (images : List imageData) : Prop :=
  ∀ imd ∈ images, 0 < imd.height ∧ 0 < imd.width

/-- The sum of the heights and the sum of the widths are both at most the
largest `int`, `2^63 - 1`. -/
def SumsFit (images : List imageData) : Prop :=
  sumHeights images < 2 ^ 63 ∧ sumWidths images < 2 ^ 63

/-- A canvas of width `W` and height `H` can be allocated: the length
`4*W*H` of its pixel buffer fits an `int` and the runtime can provide it. -/
def CanAlloc (env : Env) (W H : Int) : Prop :=
  4 * W * H < 2 ^ 63 ∧ env.canAlloc (4 * W * H) = true

/-- The loop of `getMaxDim` started from the bounds `a`, `b`. -/
def maxLoop (images : List imageData) (a b : Int) : Int × Int :=
  images.foldl
    (fun (acc : Int × Int) imd =>
      (if imd.height > acc.1 then imd.height else acc.1,
       if imd.width > acc.2 then imd.width else acc.2)) (a, b)

/-- An image of the given width and height, bounds starting at the origin,
every pixel of the colour `c`. -/
def uniformImage (width height : Int) (c : Color) : Image :=
  ⟨Rect 0 0 width height, fun _ _ => c⟩

/-- An opaque red, as returned by `RGBA()`. -/
def red : Color := ⟨0xffff, 0, 0, 0xffff⟩

/-- An opaque blue, as returned by `RGBA()`. -/
def blue : Color := ⟨0, 0, 0xffff, 0xffff⟩

/-- A loaded image: 100 pixels high and 50 wide, all red. -/
def imgA : imageData := ⟨uniformImage 50 100 red, 50, 100, "a.png"⟩

/-- A loaded image: 100 pixels high and 50 wide, all blue. -/
def imgB : imageData := ⟨uniformImage 50 100 blue, 50, 100, "b.png"⟩

/-- A loaded image: 30 pixels high and 20 wide, all blue. -/
def imgC : imageData := ⟨uniformImage 20 30 blue, 20, 30, "c.png"⟩

/-- A descriptor of width 1 and of the largest height an `int` can hold,
all red. -/
def tall : imageData :=
  ⟨uniformImage 1 9223372036854775807 red, 1, 9223372036854775807, "tall.png"⟩

/-- A descriptor of width 1 and height 1, all blue. -/
def dot : imageData := ⟨uniformImage 1 1 blue, 1, 1, "dot.png"⟩

/-- A descriptor of width 1 and height 3, all blue. -/
def bar : imageData := ⟨uniformImage 1 3 blue, 1, 3, "bar.png"⟩

/-- A descriptor whose width and height are both the largest `int`. -/
def huge : imageData :=
  ⟨uniformImage 9223372036854775807 9223372036854775807 red,
    9223372036854775807, 9223372036854775807, "huge.png"⟩

/-- A descriptor of width 2 and height 2. -/
def two : imageData := ⟨uniformImage 2 2 blue, 2, 2, "two.png"⟩

/-- A descriptor of width `2^40` and height `2^40`. -/
def wide : imageData :=
  ⟨uniformImage 1099511627776 1099511627776 red, 1099511627776, 1099511627776, "wide.png"⟩

/-- Surroundings in which every file may be read and written, a buffer of up
to `2^30` bytes can be had, nothing decodes, and the encoders write a short
marker. -/
def plainEnv : Env :=
  ⟨fun _ => true, fun _ => true, fun n => decide (n ≤ 1073741824),
   fun _ => .error "image: unknown format", fun _ => .error "image: unknown format",
   fun _ => ([137, 80, 78, 71], none), fun _ _ => ([255, 216], none)⟩

/-- A world whose only entry is an earlier result `combined.png`. -/
def oldWorld : World := ⟨[("combined.png", Node.file [137, 80, 78, 71])], []⟩

/-- A world with no entries. -/
def emptyWorld : World := ⟨[], []⟩

/-- The rectangles the loop of the case `"bottom"` hands to `draw.Draw` when
it starts with the cursor at `(posx, posy)`. -/
def bottomRects (posx posy : Int) : List imageData → List Rectangle
  | [] => []
  | imd :: rest =>
    Rect posx posy (wrapInt (posx + imd.width)) (wrapInt (posy + imd.height)) ::
      bottomRects posx (wrapInt (posy + imd.height)) rest

/-- The rectangles the loop of the case `"right"` hands to `draw.Draw` when
it starts with the cursor at `(posx, posy)`. -/
def rightRects (posx posy : Int) : List imageData → List Rectangle
  | [] => []
  | imd :: rest =>
    Rect posx posy (wrapInt (posx + imd.width)) (wrapInt (posy + imd.height)) ::
      rightRects (wrapInt (posx + imd.width)) posy rest

/-- The place of the image `imd`, the `i`-th of `images`, in "bottom" mode:
the rectangle that `image.Rect` builds from the origin `(0, sum of the
heights before it)` and the origin plus the extent `(width, height)`. -/
def bottomPlace (images : List imageData) (i : Nat) (imd : imageData) : Rectangle :=
  Rect 0 (sumHeights (images.take i)) (0 + imd.width)
    (sumHeights (images.take i) + imd.height)

/-- The place of the image `imd`, the `i`-th of `images`, in "right" mode:
the rectangle that `image.Rect` builds from the origin `(sum of the widths
before it, 0)` and the origin plus the extent `(width, height)`. -/
def rightPlace (images : List imageData) (i : Nat) (imd : imageData) : Rectangle :=
  Rect (sumWidths (images.take i)) 0 (sumWidths (images.take i) + imd.width)
    (0 + imd.height)

/-- The pixel bounds of every image are `(0,0)-(width,height)`, as for a
decoded file whose header gave the same dimensions. -/
def ZeroBased (images : List imageData) : Prop :=
  ∀ imd ∈ images, imd.img.Bounds = ⟨⟨0, 0⟩, ⟨imd.width, imd.height⟩⟩

/-- What the loops require of the images still to be painted onto a canvas
of width `W` and height `H`. -/
def Fits (W H : Int) (images : List imageData) : Prop :=
  ∀ d ∈ images, 0 < d.height ∧ 0 < d.width ∧ d.width ≤ W ∧ d.height ≤ H ∧
    d.img.Bounds = ⟨⟨0, 0⟩, ⟨d.width, d.height⟩⟩

/-- The bounds of the canvas that `makeImage` asks `image.NewRGBA` for, for a
side that is "bottom" or "right". -/
def canvasRect (side : String) (th tw maxh maxw : Int) : Rectangle :=
  if side = "bottom" then Rect 0 0 maxw th else Rect 0 0 tw maxh

/-- Surroundings like `plainEnv` in which a buffer of any length can be
had. -/
def roomyEnv : Env :=
  ⟨fun _ => true, fun _ => true, fun _ => true,
   fun _ => .error "image: unknown format", fun _ => .error "image: unknown format",
   fun _ => ([137, 80, 78, 71], none), fun _ _ => ([255, 216], none)⟩

/-- Every width and every height of the list is a value of the type `int`. -/
def IntDims (images : List imageData) : Prop :=
  ∀ d ∈ images, IsInt d.width ∧ IsInt d.height

/-- The sum of the heights of the first `k` images is an `int`, for every
`k`: the cursor `posy` of the "bottom" loop never wraps around. -/
def HeightsFit (images : List imageData) : Prop :=
  ∀ k, IsInt (sumHeights (images.take k))

/-- The sum of the widths of the first `k` images is an `int`, for every
`k`: the cursor `posx` of the "right" loop never wraps around. -/
def WidthsFit (images : List imageData) : Prop :=
  ∀ k, IsInt (sumWidths (images.take k))

/-- The run of `processImages` on these images reaches the end of the
painting: the side is "bottom" or "right", the sum of the dimensions along
that side is at most the largest `int`, and the canvas, as wide and as high
as the sum along the side and the maximum across it, can be allocated. -/
def Paintable (env : Env) (images : List imageData) (side : String) : Prop :=
  (side = "bottom" ∧ sumHeights images < 2 ^ 63 ∧
    CanAlloc env (getMaxDim images).2.1 (sumHeights images)) ∨
  (side = "right" ∧ sumWidths images < 2 ^ 63 ∧
    CanAlloc env (sumWidths images) (getMaxDim images).1)

/-- The place of the `i`-th image for a side that is "bottom" or "right". -/
def placeOf (side : String) (images : List imageData) (i : Nat) (imd : imageData) :
    Rectangle :=
  if side = "bottom" then bottomPlace images i imd else rightPlace images i imd

/-! ## Facts about Go `int` -/

theorem wrapInt_eq (x : Int) (h1 : -2 ^ 63 ≤ x) (h2 : x < 2 ^ 63) : wrapInt x = x := by
  unfold wrapInt
  rw [Int.emod_eq_of_lt (by omega) (by omega)]
  ring

theorem wrapInt_range (x : Int) : -2 ^ 63 ≤ wrapInt x ∧ wrapInt x < 2 ^ 63 := by
  unfold wrapInt
  omega

theorem wrapInt_add_wrap (a b : Int) : wrapInt (wrapInt a + b) = wrapInt (a + b) := by
  unfold wrapInt
  omega

theorem wrapInt_zero : wrapInt 0 = 0 := by decide

/-! ## Facts about the aggregation loops -/

theorem foldl_total (images : List imageData) (a b : Int) :
    images.foldl
      (fun (acc : Int × Int) imd =>
        (wrapInt (acc.1 + imd.height), wrapInt (acc.2 + imd.width))) (wrapInt a, wrapInt b)
      = (wrapInt (a + sumHeights images), wrapInt (b + sumWidths images)) := by
  induction images generalizing a b with
  | nil => simp [sumHeights, sumWidths]
  | cons imd rest ih =>
    simp only [List.foldl_cons, wrapInt_add_wrap, ih, sumHeights, sumWidths, List.map_cons,
      List.sum_cons]
    rw [add_assoc, add_assoc]

theorem getTotalDim_fst (images : List imageData) :
    (getTotalDim images).1 = wrapInt (sumHeights images) := by
  have h := foldl_total images 0 0
  rw [wrapInt_zero, zero_add, zero_add] at h
  unfold getTotalDim
  simp only [h]
  split <;> rfl

theorem getTotalDim_snd (images : List imageData) :
    (getTotalDim images).2.1 = wrapInt (sumWidths images) := by
  have h := foldl_total images 0 0
  rw [wrapInt_zero, zero_add, zero_add] at h
  unfold getTotalDim
  simp only [h]
  split <;> rfl

theorem getTotalDim_err (images : List imageData) :
    (getTotalDim images).2.2 =
      if wrapInt (sumHeights images) = 0 ∧ wrapInt (sumWidths images) = 0 then
        some Error.emptyDim
      else none := by
  have h := foldl_total images 0 0
  rw [wrapInt_zero, zero_add, zero_add] at h
  unfold getTotalDim
  simp only [h]
  split <;> rfl

theorem sumHeights_pos (images : List imageData) (hne : images ≠ [])
    (hpos : PositiveDims images) : 0 < sumHeights images := by
  induction images with
  | nil => exact absurd rfl hne
  | cons imd rest ih =>
    have h1 := (hpos imd (List.mem_cons_self _ _)).1
    have hrest : PositiveDims rest := fun d hd => hpos d (List.mem_cons_of_mem _ hd)
    by_cases hr : rest = []
    · subst hr; simpa [sumHeights] using h1
    · have := ih hr hrest
      simp only [sumHeights, List.map_cons, List.sum_cons] at this ⊢
      omega

theorem sumWidths_pos (images : List imageData) (hne : images ≠ [])
    (hpos : PositiveDims images) : 0 < sumWidths images := by
  induction images with
  | nil => exact absurd rfl hne
  | cons imd rest ih =>
    have h1 := (hpos imd (List.mem_cons_self _ _)).2
    have hrest : PositiveDims rest := fun d hd => hpos d (List.mem_cons_of_mem _ hd)
    by_cases hr : rest = []
    · subst hr; simpa [sumWidths] using h1
    · have := ih hr hrest
      simp only [sumWidths, List.map_cons, List.sum_cons] at this ⊢
      omega

theorem getTotalDim_pos (images : List imageData) (hne : images ≠ [])
    (hpos : PositiveDims images) (hfit : SumsFit images) :
    getTotalDim images = (sumHeights images, sumWidths images, none) := by
  have hp := sumHeights_pos images hne hpos
  have hq := sumWidths_pos images hne hpos
  have e1 := wrapInt_eq (sumHeights images) (by omega) hfit.1
  have e2 := wrapInt_eq (sumWidths images) (by omega) hfit.2
  have h1 := getTotalDim_fst images
  have h2 := getTotalDim_snd images
  have h3 := getTotalDim_err images
  rw [e1] at h1
  rw [e2] at h2
  rw [e1, e2, if_neg (by omega)] at h3
  ext <;> simp [h1, h2, h3]

theorem maxLoop_spec (images : List imageData) (a b : Int) :
    (a ≤ (maxLoop images a b).1 ∧ (∀ imd ∈ images, imd.height ≤ (maxLoop images a b).1) ∧
      ((maxLoop images a b).1 = a ∨ ∃ imd ∈ images, (maxLoop images a b).1 = imd.height)) ∧
    (b ≤ (maxLoop images a b).2 ∧ (∀ imd ∈ images, imd.width ≤ (maxLoop images a b).2) ∧
      ((maxLoop images a b).2 = b ∨ ∃ imd ∈ images, (maxLoop images a b).2 = imd.width)) := by
  induction images generalizing a b with
  | nil => simp [maxLoop]
  | cons imd rest ih =>
    have key : maxLoop (imd :: rest) a b =
        maxLoop rest (if imd.height > a then imd.height else a)
          (if imd.width > b then imd.width else b) := by
      simp [maxLoop]
    rw [key]
    have hA : a ≤ (if imd.height > a then imd.height else a) ∧
        imd.height ≤ (if imd.height > a then imd.height else a) ∧
        ((if imd.height > a then imd.height else a) = a ∨
          (if imd.height > a then imd.height else a) = imd.height) := by
      split <;> omega
    have hB : b ≤ (if imd.width > b then imd.width else b) ∧
        imd.width ≤ (if imd.width > b then imd.width else b) ∧
        ((if imd.width > b then imd.width else b) = b ∨
          (if imd.width > b then imd.width else b) = imd.width) := by
      split <;> omega
    generalize (if imd.height > a then imd.height else a) = A at hA ⊢
    generalize (if imd.width > b then imd.width else b) = B at hB ⊢
    obtain ⟨⟨h1, h2, h3⟩, ⟨w1, w2, w3⟩⟩ := ih A B
    refine ⟨⟨by omega, ?_, ?_⟩, ⟨by omega, ?_, ?_⟩⟩
    · intro d hd
      rcases List.mem_cons.mp hd with rfl | hd
      · omega
      · exact h2 d hd
    · rcases h3 with h3 | ⟨d, hd, h3⟩
      · rcases hA.2.2 with hA2 | hA2
        · left; omega
        · right; exact ⟨imd, List.mem_cons_self _ _, by omega⟩
      · right; exact ⟨d, List.mem_cons_of_mem _ hd, h3⟩
    · intro d hd
      rcases List.mem_cons.mp hd with rfl | hd
      · omega
      · exact w2 d hd
    · rcases w3 with w3 | ⟨d, hd, w3⟩
      · rcases hB.2.2 with hB2 | hB2
        · left; omega
        · right; exact ⟨imd, List.mem_cons_self _ _, by omega⟩
      · right; exact ⟨d, List.mem_cons_of_mem _ hd, w3⟩

theorem getMaxDim_eq (images : List imageData) :
    getMaxDim images = ((maxLoop images 0 0).1, (maxLoop images 0 0).2, none) := rfl

theorem getMaxDim_pos (images : List imageData) (hne : images ≠ [])
    (hpos : PositiveDims images) :
    (images.map imageData.height).maximum = ((getMaxDim images).1 : WithBot Int) ∧
    (images.map imageData.width).maximum = ((getMaxDim images).2.1 : WithBot Int) := by
  obtain ⟨⟨_, h2, h3⟩, ⟨_, w2, w3⟩⟩ := maxLoop_spec images 0 0
  obtain ⟨d0, hd0⟩ := List.exists_mem_of_ne_nil images hne
  have p0 := hpos d0 hd0
  have hh := h2 d0 hd0
  have hw := w2 d0 hd0
  rw [getMaxDim_eq]
  constructor
  · rw [List.maximum_eq_coe_iff]
    refine ⟨?_, ?_⟩
    · rcases h3 with h3 | ⟨d, hd, h3⟩
      · omega
      · exact List.mem_map.mpr ⟨d, hd, h3.symm⟩
    · intro a ha
      obtain ⟨d, hd, rfl⟩ := List.mem_map.mp ha
      exact h2 d hd
  · rw [List.maximum_eq_coe_iff]
    refine ⟨?_, ?_⟩
    · rcases w3 with w3 | ⟨d, hd, w3⟩
      · omega
      · exact List.mem_map.mpr ⟨d, hd, w3.symm⟩
    · intro a ha
      obtain ⟨d, hd, rfl⟩ := List.mem_map.mp ha
      exact w2 d hd

theorem getTotalDim_ok_bottom (images : List imageData) (hne : images ≠ [])
    (hpos : PositiveDims images) (hH : sumHeights images < 2 ^ 63) :
    (getTotalDim images).1 = sumHeights images ∧ (getTotalDim images).2.2 = none := by
  have hp := sumHeights_pos images hne hpos
  have e1 := wrapInt_eq (sumHeights images) (by omega) hH
  refine ⟨by rw [getTotalDim_fst, e1], ?_⟩
  rw [getTotalDim_err, e1, if_neg (by omega)]

theorem getTotalDim_ok_right (images : List imageData) (hne : images ≠ [])
    (hpos : PositiveDims images) (hW : sumWidths images < 2 ^ 63) :
    (getTotalDim images).2.1 = sumWidths images ∧ (getTotalDim images).2.2 = none := by
  have hp := sumWidths_pos images hne hpos
  have e1 := wrapInt_eq (sumWidths images) (by omega) hW
  refine ⟨by rw [getTotalDim_snd, e1], ?_⟩
  rw [getTotalDim_err, e1, if_neg (by omega)]

theorem positiveDims_sample : PositiveDims [imgA, imgC] := by
  intro d hd
  simp only [List.mem_cons, List.mem_singleton, List.not_mem_nil, or_false] at hd
  rcases hd with rfl | rfl <;> exact ⟨by decide, by decide⟩

theorem sumsFit_sample : SumsFit [imgA, imgC] := by
  constructor <;> decide

/-! ## The claims about the aggregation -/

/-- C4, as stated, fails: for a descriptor of height `2^63 - 1` followed by
one of height 1, both of width 1, the total height that `getTotalDim`
returns is `-2^63`, not the sum `2^63` of the heights. -/
theorem getTotalDim_wraps :
    [tall, dot] ≠ [] ∧ PositiveDims [tall, dot] ∧
    getTotalDim [tall, dot] = (-9223372036854775808, 2, none) ∧
    sumHeights [tall, dot] = 9223372036854775808 ∧
    (getTotalDim [tall, dot]).1 ≠ sumHeights [tall, dot] := by
  refine ⟨by simp, ?_, by decide, by decide, by decide⟩
  intro d hd
  simp only [List.mem_cons, List.mem_singleton, List.not_mem_nil, or_false] at hd
  rcases hd with rfl | rfl <;> exact ⟨by decide, by decide⟩

/-- C4, amended: for every non-empty list of descriptors with positive
heights and widths whose sum of heights and sum of widths are each at most
the largest `int` (`2^63 - 1`), `getTotalDim` returns the sum of the heights
and the sum of the widths, and `getMaxDim` returns the maximum of the
heights and the maximum of the widths, both without error; for a list of
one image all four values are the height and the width of that image. -/
theorem aggregate_totals_and_maxima (images : List imageData) (hne : images ≠ [])
    (hpos : PositiveDims images) (hfit : SumsFit images) :
    getTotalDim images = (sumHeights images, sumWidths images, none) ∧
    (getMaxDim images).2.2 = none ∧
    (images.map imageData.height).maximum = ((getMaxDim images).1 : WithBot Int) ∧
    (images.map imageData.width).maximum = ((getMaxDim images).2.1 : WithBot Int) ∧
    (∀ imd, images = [imd] →
      getTotalDim images = (imd.height, imd.width, none) ∧
      getMaxDim images = (imd.height, imd.width, none)) := by
  refine ⟨getTotalDim_pos images hne hpos hfit, rfl, (getMaxDim_pos images hne hpos).1,
    (getMaxDim_pos images hne hpos).2, ?_⟩
  intro imd himd
  subst himd
  have p := hpos imd (List.mem_singleton_self _)
  constructor
  · rw [getTotalDim_pos [imd] hne hpos hfit]
    simp [sumHeights, sumWidths]
  · simp only [getMaxDim, List.foldl_cons, List.foldl_nil]
    rw [if_pos (by omega), if_pos (by omega)]

/-- C4, amended, at the list of a 100x50 and a 30x20 image (height x
width): the totals are 130 and 70, the maxima 100 and 50. -/
theorem aggregate_totals_and_maxima_witness :
    getTotalDim [imgA, imgC] = (130, 70, none) ∧
    (getMaxDim [imgA, imgC]).1 = 100 ∧ (getMaxDim [imgA, imgC]).2.1 = 50 ∧
    ([imgA, imgC].map imageData.height).maximum = ((100 : Int) : WithBot Int) := by
  have h := aggregate_totals_and_maxima [imgA, imgC] (by simp) positiveDims_sample
    sumsFit_sample
  have e1 : (getMaxDim [imgA, imgC]).1 = 100 := by decide
  refine ⟨?_, e1, by decide, ?_⟩
  · rw [h.1]; decide
  · rw [h.2.2.1, e1]

/-- C10, as stated, fails: three descriptors whose heights and widths are
`2^63 - 1`, `2^63 - 1` and 2 form a non-empty list of positive dimensions,
yet both totals wrap around to zero and `getTotalDim` returns the
empty-dimension error. -/
theorem getTotalDim_fails_on_positive :
    [huge, huge, two] ≠ [] ∧ PositiveDims [huge, huge, two] ∧
    getTotalDim [huge, huge, two] = (0, 0, some Error.emptyDim) := by
  refine ⟨by simp, ?_, by decide⟩
  intro d hd
  simp only [List.mem_cons, List.mem_singleton, List.not_mem_nil, or_false] at hd
  rcases hd with rfl | rfl | rfl <;> exact ⟨by decide, by decide⟩

/-- C10, amended: `getTotalDim` returns the empty-dimension error exactly
when the total height and the total width it computed (the sums over the
list, reduced to `int`) are both zero; so it does not fail on a non-empty
list of positive dimensions whose sum of heights or sum of widths is at most
the largest `int`, and it fails on the empty list. -/
theorem getTotalDim_error_iff_both_zero (images : List imageData) :
    (getTotalDim images).1 = wrapInt (sumHeights images) ∧
    (getTotalDim images).2.1 = wrapInt (sumWidths images) ∧
    ((getTotalDim images).2.2 = some Error.emptyDim ↔
      (getTotalDim images).1 = 0 ∧ (getTotalDim images).2.1 = 0) ∧
    ((getTotalDim images).2.2 = none ↔
      ¬ ((getTotalDim images).1 = 0 ∧ (getTotalDim images).2.1 = 0)) ∧
    (images ≠ [] → PositiveDims images →
      sumHeights images < 2 ^ 63 ∨ sumWidths images < 2 ^ 63 →
      (getTotalDim images).2.2 = none) ∧
    (getTotalDim []).2.2 = some Error.emptyDim := by
  refine ⟨getTotalDim_fst images, getTotalDim_snd images, ?_, ?_, ?_, by decide⟩
  · rw [getTotalDim_fst, getTotalDim_snd, getTotalDim_err]
    split <;> simp_all
  · rw [getTotalDim_fst, getTotalDim_snd, getTotalDim_err]
    split <;> simp_all
  · intro hne hpos hfit
    rcases hfit with h | h
    · exact (getTotalDim_ok_bottom images hne hpos h).2
    · exact (getTotalDim_ok_right images hne hpos h).2

/-- C10, amended, at a list of two positive images: no error is returned. -/
theorem getTotalDim_error_iff_both_zero_witness :
    [imgA, imgC] ≠ [] ∧ PositiveDims [imgA, imgC] ∧ sumHeights [imgA, imgC] < 2 ^ 63 ∧
    (getTotalDim [imgA, imgC]).2.2 = none :=
  ⟨by simp, positiveDims_sample, by decide,
    (getTotalDim_error_iff_both_zero [imgA, imgC]).2.2.2.2.1 (by simp)
      positiveDims_sample (Or.inl (by decide))⟩

/-! ## Facts about the file system and the switch -/

theorem lookup_setNode_same (nodes : List (String × Node)) (p : String) (n : Node) :
    (setNode nodes p n).lookup p = some n := by
  induction nodes with
  | nil => simp [setNode, List.lookup]
  | cons hd rest ih =>
    obtain ⟨q, k⟩ := hd
    by_cases hq : q = p
    · simp [setNode, hq, List.lookup]
    · have hpq : (p == q) = false := by simpa using fun h => hq h.symm
      simp [setNode, hq, List.lookup, hpq, ih]

theorem lookup_setNode_other (nodes : List (String × Node)) (p q : String) (n : Node)
    (hne : q ≠ p) : (setNode nodes p n).lookup q = nodes.lookup q := by
  induction nodes with
  | nil =>
    have hqp : (q == p) = false := by simpa using hne
    simp [setNode, List.lookup, hqp]
  | cons hd rest ih =>
    obtain ⟨r, k⟩ := hd
    by_cases hr : r = p
    · subst hr
      have hqp : (q == r) = false := by simpa using hne
      simp [setNode, List.lookup, hqp]
    · by_cases hqr : q = r
      · subst hqr; simp [setNode, hr, List.lookup]
      · have hqr2 : (q == r) = false := by simpa using hqr
        simp [setNode, hr, List.lookup, hqr2, ih]

theorem osCreate_log (env : Env) (w : World) (path : String) :
    (osCreate env w path).2.log = w.log ++ [Call.create path] := by
  unfold osCreate
  split <;> rfl

theorem osCreate_fail_nodes (env : Env) (w : World) (path : String)
    (h : (osCreate env w path).1 ≠ none) : (osCreate env w path).2.nodes = w.nodes := by
  unfold osCreate at h ⊢
  split
  · rfl
  · rename_i hc; simp [hc] at h

theorem osCreate_ok_nodes (env : Env) (w : World) (path : String)
    (h : (osCreate env w path).1 = none) :
    (osCreate env w path).2.nodes = setNode w.nodes path (Node.file []) := by
  unfold osCreate at h ⊢
  split
  · rename_i hc; simp [hc] at h
  · rfl

theorem osCreate_err_kind (env : Env) (w : World) (path : String) (e : Error)
    (h : (osCreate env w path).1 = some e) : e = Error.os "open" path := by
  unfold osCreate at h
  split at h
  · simpa using h.symm
  · simp at h

theorem paint_badSide_iff (env : Env) (th tw maxh maxw : Int) (images : List imageData)
    (side : String) :
    paint env th tw maxh maxw images side = Painted.badSide ↔
      side ≠ "bottom" ∧ side ≠ "right" := by
  unfold paint
  by_cases h1 : side = "bottom"
  · simp only [h1, if_true]
    cases NewRGBA env (Rect 0 0 maxw th) <;> simp
  · by_cases h2 : side = "right"
    · have : ¬ ("right" = "bottom") := by decide
      simp only [h2, this, if_true, if_false]
      cases NewRGBA env (Rect 0 0 tw maxh) <;> simp
    · simp [h1, h2]

theorem paint_bottom (env : Env) (th tw maxh maxw : Int) (images : List imageData)
    (img : RGBA) (h : NewRGBA env (Rect 0 0 maxw th) = some img) :
    paint env th tw maxh maxw images "bottom" =
      Painted.done (images.foldl bottomStep ⟨img, 0, 0, []⟩) := by
  simp [paint, h]

theorem paint_right (env : Env) (th tw maxh maxw : Int) (images : List imageData)
    (img : RGBA) (h : NewRGBA env (Rect 0 0 tw maxh) = some img) :
    paint env th tw maxh maxw images "right" =
      Painted.done (images.foldl rightStep ⟨img, 0, 0, []⟩) := by
  have : ¬ ("right" = "bottom") := by decide
  simp [paint, this, h]

theorem paint_done (env : Env) (th tw maxh maxw : Int) (images : List imageData)
    (side : String) (hside : side = "bottom" ∨ side = "right")
    (halloc : (NewRGBA env (canvasRect side th tw maxh maxw)).isSome = true) :
    ∃ s, paint env th tw maxh maxw images side = Painted.done s := by
  obtain ⟨img, himg⟩ := Option.isSome_iff_exists.mp halloc
  rcases hside with h | h
  · subst h
    simp only [canvasRect, if_true] at himg
    exact ⟨_, paint_bottom env th tw maxh maxw images img himg⟩
  · subst h
    have : ¬ ("right" = "bottom") := by decide
    simp only [canvasRect, this, if_false] at himg
    exact ⟨_, paint_right env th tw maxh maxw images img himg⟩

theorem makeImage_create_failed (env : Env) (w : World) (th tw maxh maxw : Int)
    (images : List imageData) (format side outfile : String) (s : Painter)
    (hp : paint env th tw maxh maxw images side = Painted.done s) (e : Error)
    (hc : (osCreate env w outfile).1 = some e) :
    makeImage env w th tw maxh maxw images format side outfile =
      ⟨some e, some s.img, s.drawn, (osCreate env w outfile).2, false⟩ := by
  unfold makeImage
  simp only [hp]
  rcases hcr : osCreate env w outfile with ⟨_ | e2, w1⟩
  · rw [hcr] at hc; simp at hc
  · rw [hcr] at hc
    simp only [Option.some.injEq] at hc
    subst hc; rfl

theorem makeImage_created (env : Env) (w : World) (th tw maxh maxw : Int)
    (images : List imageData) (format side outfile : String) (s : Painter)
    (hp : paint env th tw maxh maxw images side = Painted.done s)
    (hc : (osCreate env w outfile).1 = none) :
    makeImage env w th tw maxh maxw images format side outfile =
      if format = "png" then
        ⟨(env.pngEncode s.img).2.map Error.codec, some s.img, s.drawn,
          osWrite (osCreate env w outfile).2 outfile (env.pngEncode s.img).1, false⟩
      else if format = "jpg" then
        ⟨(env.jpegEncode 90 s.img).2.map Error.codec, some s.img, s.drawn,
          osWrite (osCreate env w outfile).2 outfile (env.jpegEncode 90 s.img).1, false⟩
      else
        ⟨some Error.unsupportedFormat, some s.img, s.drawn, (osCreate env w outfile).2,
          false⟩ := by
  unfold makeImage
  simp only [hp]
  rcases hcr : osCreate env w outfile with ⟨_ | e2, w1⟩
  · rfl
  · rw [hcr] at hc; simp at hc

theorem makeImage_badSide (env : Env) (w : World) (th tw maxh maxw : Int)
    (images : List imageData) (format side outfile : String)
    (hb : side ≠ "bottom") (hr : side ≠ "right") :
    makeImage env w th tw maxh maxw images format side outfile =
      ⟨some Error.unsupportedSide, none, [], w, false⟩ := by
  have hp := (paint_badSide_iff env th tw maxh maxw images side).mpr ⟨hb, hr⟩
  unfold makeImage
  simp [hp]

theorem makeImage_err_ne_format (env : Env) (w : World) (th tw maxh maxw : Int)
    (images : List imageData) (format side outfile : String)
    (hfmt : format = "png" ∨ format = "jpg") :
    (makeImage env w th tw maxh maxw images format side outfile).err
      ≠ some Error.unsupportedFormat := by
  cases hp : paint env th tw maxh maxw images side with
  | badSide =>
    unfold makeImage
    simp [hp]
  | panicked =>
    unfold makeImage
    simp [hp]
  | done s =>
    cases hc : (osCreate env w outfile).1 with
    | some e =>
      rw [makeImage_create_failed env w th tw maxh maxw images format side outfile s hp e hc]
      have := osCreate_err_kind env w outfile e hc
      simp [this]
    | none =>
      rw [makeImage_created env w th tw maxh maxw images format side outfile s hp hc]
      rcases hfmt with h | h
      · subst h
        simp
      · subst h
        have : ¬ ("jpg" = "png") := by decide
        simp [this]

/-! ## The claims about the errors of `makeImage` -/

/-- C5: for every side other than exactly "bottom" or "right", and for
every image list, format and output path, `makeImage` returns the
unsupported-side error, its canvas is still nil, nothing was painted, and
the world is as before: no file was created or written and no call was made
to the operating system; the run does not end in a panic. -/
theorem makeImage_unsupported_side (env : Env) (w : World) (th tw maxh maxw : Int)
    (images : List imageData) (format side outfile : String)
    (hb : side ≠ "bottom") (hr : side ≠ "right") :
    (makeImage env w th tw maxh maxw images format side outfile).err
      = some Error.unsupportedSide ∧
    (makeImage env w th tw maxh maxw images format side outfile).img = none ∧
    (makeImage env w th tw maxh maxw images format side outfile).drawn = [] ∧
    (makeImage env w th tw maxh maxw images format side outfile).world = w ∧
    (makeImage env w th tw maxh maxw images format side outfile).panicked = false := by
  rw [makeImage_badSide env w th tw maxh maxw images format side outfile hb hr]
  exact ⟨rfl, rfl, rfl, rfl, rfl⟩

/-- C5 at the side "top": the error is returned and the earlier
`combined.png` is untouched. -/
theorem makeImage_unsupported_side_witness :
    (makeImage plainEnv oldWorld 200 100 100 50 [imgA, imgB] "png" "top" "combined.png").err
      = some Error.unsupportedSide ∧
    (makeImage plainEnv oldWorld 200 100 100 50 [imgA, imgB] "png" "top" "combined.png").world
      = oldWorld :=
  have h := makeImage_unsupported_side plainEnv oldWorld 200 100 100 50 [imgA, imgB]
    "png" "top" "combined.png" (by decide) (by decide)
  ⟨h.1, h.2.2.2.1⟩

/-- C6, as stated, fails: with the format "gif", the side "bottom", an
output file that can be created and a canvas of `2^40` by `2^40` pixels,
`makeImage` ends in the panic of `image.NewRGBA`, however much memory there
is, and returns no error at all. -/
theorem makeImage_bad_format_huge_canvas :
    (osCreate roomyEnv emptyWorld "out.gif").1 = none ∧
    (makeImage roomyEnv emptyWorld 1099511627776 0 0 1099511627776 [] "gif" "bottom"
      "out.gif").panicked = true ∧
    (makeImage roomyEnv emptyWorld 1099511627776 0 0 1099511627776 [] "gif" "bottom"
      "out.gif").err ≠ some Error.unsupportedFormat := by
  refine ⟨by decide, by decide, by decide⟩

/-- C6, amended: with a valid side, a canvas that `image.NewRGBA` can
allocate and an output file that can be created, every format other than
exactly "png" or "jpg" makes `makeImage` return the unsupported-format
error; and with the format "png" or "jpg" the error returned, if any, is
never that one. -/
theorem makeImage_unsupported_format (env : Env) (w : World) (th tw maxh maxw : Int)
    (images : List imageData) (format side outfile : String) :
    (side = "bottom" ∨ side = "right" →
      (NewRGBA env (canvasRect side th tw maxh maxw)).isSome = true →
      (osCreate env w outfile).1 = none →
      format ≠ "png" → format ≠ "jpg" →
      (makeImage env w th tw maxh maxw images format side outfile).err
        = some Error.unsupportedFormat ∧
      (makeImage env w th tw maxh maxw images format side outfile).panicked = false) ∧
    (format = "png" ∨ format = "jpg" →
      (makeImage env w th tw maxh maxw images format side outfile).err
        ≠ some Error.unsupportedFormat) := by
  constructor
  · intro hside halloc hc hpng hjpg
    obtain ⟨s, hp⟩ := paint_done env th tw maxh maxw images side hside halloc
    rw [makeImage_created env w th tw maxh maxw images format side outfile s hp hc]
    simp [hpng, hjpg]
  · exact makeImage_err_ne_format env w th tw maxh maxw images format side outfile

/-- C6, amended, at the format "gif" with the side "right", a canvas of 100
by 100 pixels and a creatable output file: the unsupported-format error is
returned. -/
theorem makeImage_unsupported_format_witness :
    (makeImage plainEnv emptyWorld 200 100 100 50 [imgA, imgB] "gif" "right" "out.gif").err
      = some Error.unsupportedFormat :=
  ((makeImage_unsupported_format plainEnv emptyWorld 200 100 100 50 [imgA, imgB]
    "gif" "right" "out.gif").1 (Or.inr rfl) (by decide) (by decide) (by decide)
    (by decide)).1

/-- C8, as stated, fails: with the format "gif" and the side "bottom",
`makeImage` returns the unsupported-format error only after `os.Create` has
run, so the earlier content of `combined.png` is gone and the file system is
not what it was. -/
theorem makeImage_bad_format_truncates :
    (makeImage plainEnv oldWorld 100 50 100 50 [imgA] "gif" "bottom" "combined.png").err
      = some Error.unsupportedFormat ∧
    oldWorld.lookup "combined.png" = some (Node.file [137, 80, 78, 71]) ∧
    (makeImage plainEnv oldWorld 100 50 100 50 [imgA] "gif" "bottom" "combined.png").world.lookup
      "combined.png" = some (Node.file []) ∧
    (makeImage plainEnv oldWorld 100 50 100 50 [imgA] "gif" "bottom" "combined.png").world.nodes
      ≠ oldWorld.nodes ∧
    (makeImage plainEnv oldWorld 100 50 100 50 [imgA] "gif" "bottom" "combined.png").world.log
      = [Call.create "combined.png"] := by
  refine ⟨by decide, by decide, by decide, by decide, by decide⟩

/-- C8, amended: for every format other than "png" or "jpg", with a valid
side and a canvas that `image.NewRGBA` can allocate, `makeImage` checks the
format only after it has called `os.Create` on the output file, its only
call to the operating system.  When that creation succeeds it returns the
unsupported-format error, and the output file is an empty regular file
(created, or truncated if it existed) while every other path is as before.
When the creation fails it returns the creation error, which is not the
unsupported-format error, and the file system is unchanged. -/
theorem makeImage_bad_format_after_create (env : Env) (w : World) (th tw maxh maxw : Int)
    (images : List imageData) (format side outfile : String)
    (hside : side = "bottom" ∨ side = "right")
    (halloc : (NewRGBA env (canvasRect side th tw maxh maxw)).isSome = true)
    (hpng : format ≠ "png") (hjpg : format ≠ "jpg") :
    (makeImage env w th tw maxh maxw images format side outfile).panicked = false ∧
    (makeImage env w th tw maxh maxw images format side outfile).world.log
      = w.log ++ [Call.create outfile] ∧
    ((osCreate env w outfile).1 = none →
      (makeImage env w th tw maxh maxw images format side outfile).err
        = some Error.unsupportedFormat ∧
      (makeImage env w th tw maxh maxw images format side outfile).world.lookup outfile
        = some (Node.file []) ∧
      ∀ p, p ≠ outfile →
        (makeImage env w th tw maxh maxw images format side outfile).world.lookup p
          = w.lookup p) ∧
    (∀ e, (osCreate env w outfile).1 = some e →
      (makeImage env w th tw maxh maxw images format side outfile).err = some e ∧
      e ≠ Error.unsupportedFormat ∧
      (makeImage env w th tw maxh maxw images format side outfile).world.nodes = w.nodes) := by
  obtain ⟨s, hp⟩ := paint_done env th tw maxh maxw images side hside halloc
  cases hc : (osCreate env w outfile).1 with
  | some e =>
    rw [makeImage_create_failed env w th tw maxh maxw images format side outfile s hp e hc]
    have hk := osCreate_err_kind env w outfile e hc
    have hn := osCreate_fail_nodes env w outfile (by rw [hc]; simp)
    refine ⟨rfl, osCreate_log env w outfile, by simp, ?_⟩
    intro e2 he2
    simp only [Option.some.injEq] at he2
    subst he2
    refine ⟨rfl, by rw [hk]; simp, hn⟩
  | none =>
    rw [makeImage_created env w th tw maxh maxw images format side outfile s hp hc]
    have hn := osCreate_ok_nodes env w outfile hc
    simp only [hpng, hjpg, if_false]
    refine ⟨by simp, osCreate_log env w outfile, fun _ => ⟨by simp, ?_, ?_⟩, by simp⟩
    · simp only [World.lookup, hn]
      exact lookup_setNode_same _ _ _
    · intro p hpne
      simp only [World.lookup, hn]
      exact lookup_setNode_other _ _ _ _ hpne

/-- C8, amended, at the format "gif" in a world where `combined.png`
exists: the creation is the only call, the error is returned, and the file
is empty afterwards. -/
theorem makeImage_bad_format_after_create_witness :
    (makeImage plainEnv oldWorld 100 50 100 50 [imgA] "gif" "bottom" "combined.png").world.log
      = oldWorld.log ++ [Call.create "combined.png"] ∧
    (makeImage plainEnv oldWorld 100 50 100 50 [imgA] "gif" "bottom" "combined.png").err
      = some Error.unsupportedFormat ∧
    (makeImage plainEnv oldWorld 100 50 100 50 [imgA] "gif" "bottom"
      "combined.png").world.lookup "combined.png" = some (Node.file []) :=
  have h := makeImage_bad_format_after_create plainEnv oldWorld 100 50 100 50 [imgA]
    "gif" "bottom" "combined.png" (Or.inl rfl) (by decide) (by decide) (by decide)
  ⟨h.2.1, (h.2.2.1 (by decide)).1, (h.2.2.1 (by decide)).2.1⟩

/-! ## Facts about the calls made to the operating system -/

theorem osStat_log (w : World) (path : String) :
    (osStat w path).2.log = w.log ++ [Call.stat path] := by
  unfold osStat
  split <;> rfl

theorem osOpen_log (env : Env) (w : World) (path : String) :
    (osOpen env w path).2.log = w.log ++ [Call.openFile path] := by
  unfold osOpen
  split
  · rfl
  · split <;> rfl

theorem osWrite_log (w : World) (path : String) (data : Bytes) :
    (osWrite w path data).log = w.log ++ [Call.write path data] := by
  unfold osWrite
  split <;> rfl

theorem getDim_log (env : Env) (w : World) (imd : imageData) :
    (getDim env w imd).2.log = w.log ++ [Call.openFile imd.path] := by
  have h := osOpen_log env w imd.path
  unfold getDim
  rcases ho : osOpen env w imd.path with ⟨_ | f, w1⟩
  · rw [ho] at h; simpa using h
  · rw [ho] at h
    simp only
    split <;> simpa using h

theorem getImageData_log (env : Env) (w : World) (img : Image) (filename : String) :
    (getImageData env w img filename).2.log = w.log ++ [Call.openFile filename] := by
  have h := getDim_log env w ⟨img, 0, 0, filename⟩
  unfold getImageData
  simpa using h

theorem loadImages_log (env : Env) (args : List String) (w : World)
    (images : List imageData) :
    ∃ ext, (loadImages env args w images).2.log = w.log ++ ext ∧
      ext.head? = args.head?.map Call.stat := by
  induction args generalizing w images with
  | nil => exact ⟨[], by simp [loadImages], rfl⟩
  | cons filename rest ih =>
    have hs := osStat_log w filename
    unfold loadImages
    rcases hst : osStat w filename with ⟨_ | _ | _, w1⟩
    · rw [hst] at hs
      exact ⟨[Call.stat filename], by simpa using hs, rfl⟩
    · rw [hst] at hs
      have hw2 := osOpen_log env w1 filename
      simp only
      rcases hop : osOpen env w1 filename with ⟨_ | fimg, w2⟩
      · rw [hop] at hw2
        simp only at hs hw2 ⊢
        exact ⟨[Call.stat filename] ++ [Call.openFile filename], by rw [hw2, hs]; simp, rfl⟩
      · rw [hop] at hw2
        simp only at hs hw2 ⊢
        cases hdec : Decode env fimg with
        | error _ =>
          exact ⟨[Call.stat filename] ++ [Call.openFile filename], by
            simp only; rw [hw2, hs]; simp, rfl⟩
        | ok img =>
          have hg := getImageData_log env w2 img filename
          rcases hgi : getImageData env w2 img filename with ⟨⟨imd, _ | e⟩, w3⟩
          · rw [hgi] at hg
            simp only [hgi] at hg ⊢
            obtain ⟨ext, hext, _⟩ := ih w3 (images ++ [imd])
            exact ⟨[Call.stat filename] ++ [Call.openFile filename] ++
              [Call.openFile filename] ++ ext, by rw [hext, hg, hw2, hs]; simp, rfl⟩
          · rw [hgi] at hg
            simp only [hgi] at hg ⊢
            exact ⟨[Call.stat filename] ++ [Call.openFile filename] ++
              [Call.openFile filename], by rw [hg, hw2, hs]; simp, rfl⟩
    · rw [hst] at hs
      simp only at hs ⊢
      obtain ⟨ext, hext, _⟩ := ih w1 images
      exact ⟨[Call.stat filename] ++ ext, by rw [hext, hs]; simp, rfl⟩

theorem loadImages_fatal (env : Env) (args : List String) (w : World)
    (images : List imageData) :
    (loadImages env args w images).1 ≠ Except.error Fatal.noFilesGiven := by
  induction args generalizing w images with
  | nil => simp [loadImages]
  | cons filename rest ih =>
    unfold loadImages
    rcases osStat w filename with ⟨_ | _ | _, w1⟩
    · simp
    · simp only
      rcases osOpen env w1 filename with ⟨_ | fimg, w2⟩
      · simp
      · simp only
        cases Decode env fimg with
        | error _ => simp
        | ok img =>
          simp only
          rcases hgi : getImageData env w2 img filename with ⟨⟨imd, _ | e⟩, w3⟩
          · exact ih w3 (images ++ [imd])
          · simp
    · exact ih w1 images

theorem makeImage_log (env : Env) (w : World) (th tw maxh maxw : Int)
    (images : List imageData) (format side outfile : String) :
    ∃ ext, (makeImage env w th tw maxh maxw images format side outfile).world.log
      = w.log ++ ext := by
  cases hp : paint env th tw maxh maxw images side with
  | badSide => exact ⟨[], by unfold makeImage; simp [hp]⟩
  | panicked => exact ⟨[], by unfold makeImage; simp [hp]⟩
  | done s =>
    cases hc : (osCreate env w outfile).1 with
    | some e =>
      rw [makeImage_create_failed env w th tw maxh maxw images format side outfile s hp e hc]
      exact ⟨_, osCreate_log env w outfile⟩
    | none =>
      rw [makeImage_created env w th tw maxh maxw images format side outfile s hp hc]
      split
      · exact ⟨[Call.create outfile] ++ [Call.write outfile (env.pngEncode s.img).1], by
          simp [osWrite_log, osCreate_log]⟩
      · split
        · exact ⟨[Call.create outfile] ++ [Call.write outfile (env.jpegEncode 90 s.img).1], by
            simp [osWrite_log, osCreate_log]⟩
        · exact ⟨_, osCreate_log env w outfile⟩

theorem processImages_log (env : Env) (w : World) (images : List imageData)
    (format side outfile : String) :
    (∃ ext, (processImages env w images format side outfile).world.log = w.log ++ ext) ∧
    (processImages env w images format side outfile).fatal ≠ some Fatal.noFilesGiven := by
  unfold processImages
  rcases getTotalDim images with ⟨th, tw, _ | e⟩
  · simp only
    rcases getMaxDim images with ⟨maxh, maxw, _ | e2⟩
    · simp only
      refine ⟨makeImage_log env w th tw maxh maxw images format side outfile, ?_⟩
      cases (makeImage env w th tw maxh maxw images format side outfile).err <;> simp
    · exact ⟨⟨[], by simp⟩, by simp⟩
  · exact ⟨⟨[], by simp⟩, by simp⟩

/-! ## The claim about the number of arguments -/

/-- C7: for every list of positional arguments, `main` starts loading (its
first call to the operating system is `os.Stat` on the first argument) if
and only if the number of arguments is between 1 and 9; it stops with the
message "No files given" if and only if there are no arguments or at least
10, and then the world is as before: no file was created and no call was
made. -/
theorem main_loads_iff_one_to_nine (env : Env) (w : World) (format side outfile : String)
    (args : List String) :
    ((∃ filename ext, args.head? = some filename ∧
        (main env w format side outfile args).world.log
          = w.log ++ Call.stat filename :: ext) ↔
      1 ≤ args.length ∧ args.length ≤ 9) ∧
    ((main env w format side outfile args).fatal = some Fatal.noFilesGiven ↔
      args.length = 0 ∨ 10 ≤ args.length) ∧
    (args.length = 0 ∨ 10 ≤ args.length →
      (main env w format side outfile args).world = w) ∧
    Fatal.text Fatal.noFilesGiven = "No files given" := by
  by_cases hlen : args.length > 0 ∧ args.length < 10
  · have hmain : main env w format side outfile args =
        match loadImages env args w [] with
        | (.error f, w1) => ⟨some f, w1, false⟩
        | (.ok images, w1) =>
          ⟨(processImages env w1 images format side outfile).fatal,
           (processImages env w1 images format side outfile).world,
           (processImages env w1 images format side outfile).panicked⟩ := by
      unfold main
      rw [if_pos hlen]
    obtain ⟨ext, hext, hhead⟩ := loadImages_log env args w []
    have hfat := loadImages_fatal env args w []
    obtain ⟨filename, hfn⟩ : ∃ filename, args.head? = some filename := by
      cases args with
      | nil => simp at hlen
      | cons a _ => exact ⟨a, rfl⟩
    rw [hfn] at hhead
    obtain ⟨ext2, rfl⟩ : ∃ ext2, ext = Call.stat filename :: ext2 := by
      cases ext with
      | nil => simp at hhead
      | cons c ext2 =>
        simp only [List.head?_cons, Option.map_some', Option.some.injEq] at hhead
        exact ⟨ext2, by rw [hhead]⟩
    rw [hmain]
    rcases hl : loadImages env args w [] with ⟨f | images, w1⟩
    · rw [hl] at hext hfat
      simp only at hext hfat ⊢
      refine ⟨⟨fun _ => by omega, fun _ => ⟨filename, ext2, hfn, hext⟩⟩, ?_, ?_, rfl⟩
      · constructor
        · intro h
          simp only [Option.some.injEq] at h
          subst h
          exact absurd rfl hfat
        · intro h; omega
      · intro h; omega
    · rw [hl] at hext
      simp only at hext ⊢
      obtain ⟨⟨ext3, hext3⟩, hnf⟩ := processImages_log env w1 images format side outfile
      refine ⟨⟨fun _ => by omega, fun _ => ⟨filename, ext2 ++ ext3, hfn, ?_⟩⟩, ?_, ?_, rfl⟩
      · rw [hext3, hext]; simp
      · constructor
        · intro h; exact absurd h hnf
        · intro h; omega
      · intro h; omega
  · have hmain : main env w format side outfile args = ⟨some Fatal.noFilesGiven, w, false⟩ := by
      unfold main
      rw [if_neg hlen]
    rw [hmain]
    refine ⟨⟨?_, fun h => by omega⟩, ⟨fun _ => by omega, fun _ => rfl⟩, fun _ => rfl, rfl⟩
    rintro ⟨filename, ext, _, hlog⟩
    have := congrArg List.length hlog
    simp at this

/-- C7 at no argument: the run stops with "No files given" and the world is
untouched. -/
theorem main_loads_iff_one_to_nine_witness :
    (main plainEnv oldWorld "png" "bottom" "combined.png" []).fatal
      = some Fatal.noFilesGiven ∧
    (main plainEnv oldWorld "png" "bottom" "combined.png" []).world = oldWorld :=
  have h := main_loads_iff_one_to_nine plainEnv oldWorld "png" "bottom" "combined.png" []
  ⟨h.2.1.mpr (Or.inl rfl), h.2.2.1 (Or.inl rfl)⟩

/-! ## Facts about the painting loops -/

theorem Draw_Rect (dst : RGBA) (r : Rectangle) (src : Image) (sp : Point) :
    (Draw dst r src sp).Rect = dst.Rect := by
  unfold Draw
  simp only
  split <;> rfl

theorem sumHeights_cons (imd : imageData) (rest : List imageData) :
    sumHeights (imd :: rest) = imd.height + sumHeights rest := by
  simp [sumHeights]

theorem sumWidths_cons (imd : imageData) (rest : List imageData) :
    sumWidths (imd :: rest) = imd.width + sumWidths rest := by
  simp [sumWidths]

theorem foldl_bottomStep (images : List imageData) (s : Painter) :
    (images.foldl bottomStep s).posx = s.posx ∧
    (images.foldl bottomStep s).drawn = s.drawn ++ bottomRects s.posx s.posy images ∧
    (images.foldl bottomStep s).img.Rect = s.img.Rect ∧
    (∀ y0, s.posy = wrapInt y0 →
      (images.foldl bottomStep s).posy = wrapInt (y0 + sumHeights images)) := by
  induction images generalizing s with
  | nil => simp [sumHeights, bottomRects]
  | cons imd rest ih =>
    obtain ⟨h1, h3, h4, h5⟩ := ih (bottomStep s imd)
    simp only [List.foldl_cons]
    refine ⟨h1, ?_, ?_, ?_⟩
    · rw [h3]; simp [bottomStep, bottomRects]
    · rw [h4]; simp only [bottomStep]; exact Draw_Rect _ _ _ _
    · intro y0 hy0
      rw [h5 (y0 + imd.height) (by simp only [bottomStep, hy0, wrapInt_add_wrap]),
        sumHeights_cons, add_assoc]

theorem foldl_rightStep (images : List imageData) (s : Painter) :
    (images.foldl rightStep s).posy = s.posy ∧
    (images.foldl rightStep s).drawn = s.drawn ++ rightRects s.posx s.posy images ∧
    (images.foldl rightStep s).img.Rect = s.img.Rect ∧
    (∀ x0, s.posx = wrapInt x0 →
      (images.foldl rightStep s).posx = wrapInt (x0 + sumWidths images)) := by
  induction images generalizing s with
  | nil => simp [sumWidths, rightRects]
  | cons imd rest ih =>
    obtain ⟨h1, h3, h4, h5⟩ := ih (rightStep s imd)
    simp only [List.foldl_cons]
    refine ⟨h1, ?_, ?_, ?_⟩
    · rw [h3]; simp [rightStep, rightRects]
    · rw [h4]; simp only [rightStep]; exact Draw_Rect _ _ _ _
    · intro x0 hx0
      rw [h5 (x0 + imd.width) (by simp only [rightStep, hx0, wrapInt_add_wrap]),
        sumWidths_cons, add_assoc]

theorem bottomRects_getElem (images : List imageData) (posx posy : Int)
    (hw : ∀ d ∈ images, IsInt (posx + d.width))
    (hfit : ∀ k, IsInt (posy + sumHeights (images.take k))) (i : Nat) :
    (bottomRects posx posy images)[i]? = images[i]?.map fun imd =>
      Rect posx (posy + sumHeights (images.take i)) (posx + imd.width)
        (posy + sumHeights (images.take i) + imd.height) := by
  induction images generalizing posy i with
  | nil => simp [bottomRects]
  | cons d rest ih =>
    have e1 : wrapInt (posx + d.width) = posx + d.width :=
      wrapInt_eq _ (hw d (List.mem_cons_self _ _)).1 (hw d (List.mem_cons_self _ _)).2
    have e2 : wrapInt (posy + d.height) = posy + d.height := by
      have := hfit 1
      simp only [List.take_succ_cons, List.take_zero, sumHeights, List.map_cons, List.map_nil,
        List.sum_cons, List.sum_nil, add_zero] at this
      exact wrapInt_eq _ this.1 this.2
    cases i with
    | zero => simp [bottomRects, sumHeights, e1, e2]
    | succ j =>
      simp only [bottomRects, List.getElem?_cons_succ, List.take_succ_cons, sumHeights_cons, e2]
      rw [ih (posy + d.height) (fun e he => hw e (List.mem_cons_of_mem _ he))
        (fun k => by
          have := hfit (k + 1)
          simp only [List.take_succ_cons, sumHeights_cons] at this
          rw [add_assoc]; exact this)]
      congr 1
      funext imd
      congr 1 <;> ring

theorem rightRects_getElem (images : List imageData) (posx posy : Int)
    (hh : ∀ d ∈ images, IsInt (posy + d.height))
    (hfit : ∀ k, IsInt (posx + sumWidths (images.take k))) (i : Nat) :
    (rightRects posx posy images)[i]? = images[i]?.map fun imd =>
      Rect (posx + sumWidths (images.take i)) posy
        (posx + sumWidths (images.take i) + imd.width) (posy + imd.height) := by
  induction images generalizing posx i with
  | nil => simp [rightRects]
  | cons d rest ih =>
    have e1 : wrapInt (posy + d.height) = posy + d.height :=
      wrapInt_eq _ (hh d (List.mem_cons_self _ _)).1 (hh d (List.mem_cons_self _ _)).2
    have e2 : wrapInt (posx + d.width) = posx + d.width := by
      have := hfit 1
      simp only [List.take_succ_cons, List.take_zero, sumWidths, List.map_cons, List.map_nil,
        List.sum_cons, List.sum_nil, add_zero] at this
      exact wrapInt_eq _ this.1 this.2
    cases i with
    | zero => simp [rightRects, sumWidths, e1, e2]
    | succ j =>
      simp only [rightRects, List.getElem?_cons_succ, List.take_succ_cons, sumWidths_cons, e2]
      rw [ih (posx + d.width) (fun e he => hh e (List.mem_cons_of_mem _ he))
        (fun k => by
          have := hfit (k + 1)
          simp only [List.take_succ_cons, sumWidths_cons] at this
          rw [add_assoc]; exact this)]
      congr 1
      funext imd
      congr 1 <;> ring

theorem bottomRects_length (images : List imageData) (posx posy : Int) :
    (bottomRects posx posy images).length = images.length := by
  induction images generalizing posy with
  | nil => rfl
  | cons d rest ih => simp [bottomRects, ih]

theorem rightRects_length (images : List imageData) (posx posy : Int) :
    (rightRects posx posy images).length = images.length := by
  induction images generalizing posx with
  | nil => rfl
  | cons d rest ih => simp [rightRects, ih]

theorem makeImage_painted (env : Env) (w : World) (th tw maxh maxw : Int)
    (images : List imageData) (format side outfile : String) (s : Painter)
    (hp : paint env th tw maxh maxw images side = Painted.done s) :
    (makeImage env w th tw maxh maxw images format side outfile).img = some s.img ∧
    (makeImage env w th tw maxh maxw images format side outfile).drawn = s.drawn ∧
    (makeImage env w th tw maxh maxw images format side outfile).panicked = false := by
  cases hc : (osCreate env w outfile).1 with
  | some e =>
    rw [makeImage_create_failed env w th tw maxh maxw images format side outfile s hp e hc]
    exact ⟨rfl, rfl, rfl⟩
  | none =>
    rw [makeImage_created env w th tw maxh maxw images format side outfile s hp hc]
    split
    · exact ⟨rfl, rfl, rfl⟩
    · split <;> exact ⟨rfl, rfl, rfl⟩

theorem Rect_of_le (x0 y0 x1 y1 : Int) (hx : x0 ≤ x1) (hy : y0 ≤ y1) :
    Rect x0 y0 x1 y1 = ⟨⟨x0, y0⟩, ⟨x1, y1⟩⟩ := by
  simp only [Rect]
  rw [if_neg (by omega), if_neg (by omega), if_neg (by omega), if_neg (by omega)]

theorem NewRGBA_of_canAlloc (env : Env) (W H : Int) (hW0 : 0 < W) (hH : 0 < H)
    (halloc : CanAlloc env W H) :
    NewRGBA env (Rect 0 0 W H) = some ⟨⟨⟨0, 0⟩, ⟨W, H⟩⟩, fun _ _ => ColorRGBA.zero⟩ := by
  obtain ⟨h1, h2⟩ := halloc
  have hW : 0 ≤ W := le_of_lt hW0
  have hWH : 4 * W ≤ 4 * W * H := by nlinarith
  have hHW : H ≤ 4 * W * H := by nlinarith
  have h0 : 0 ≤ 4 * W * H := by omega
  have hWle : W < 2 ^ 63 := by omega
  have hHle : H < 2 ^ 63 := by omega
  rw [Rect_of_le 0 0 W H hW (le_of_lt hH)]
  have eDx : (Rectangle.mk ⟨0, 0⟩ ⟨W, H⟩).Dx = W := by
    simp only [Rectangle.Dx, sub_zero]
    exact wrapInt_eq _ (by omega) hWle
  have eDy : (Rectangle.mk ⟨0, 0⟩ ⟨W, H⟩).Dy = H := by
    simp only [Rectangle.Dy, sub_zero]
    exact wrapInt_eq _ (by omega) hHle
  have eLen : pixelBufferLength 4 ⟨⟨0, 0⟩, ⟨W, H⟩⟩ = 4 * W * H := by
    simp only [pixelBufferLength, mul3NonNeg, eDx, eDy]
    rw [wrapInt_eq _ (by omega) h1]
    rw [if_neg (by omega), if_neg (by omega), if_neg (by omega), if_neg (by omega)]
  simp only [NewRGBA, eLen]
  rw [if_neg (by omega), if_pos h2]

/-! ## Facts about the sums over the images painted so far -/

theorem takeSum_succ (f : imageData → Int) (images : List imageData) (i : Nat)
    (imd : imageData) (hi : images[i]? = some imd) :
    ((images.take (i + 1)).map f).sum = ((images.take i).map f).sum + f imd := by
  induction images generalizing i with
  | nil => simp at hi
  | cons d rest ih =>
    cases i with
    | zero =>
      simp only [List.getElem?_cons_zero, Option.some.injEq] at hi
      subst hi
      simp
    | succ j =>
      simp only [List.getElem?_cons_succ] at hi
      simp only [List.take_succ_cons, List.map_cons, List.sum_cons]
      rw [ih j hi]
      ring

theorem takeSum_mono (f : imageData → Int) (images : List imageData)
    (hf : ∀ d ∈ images, 0 ≤ f d) (i j : Nat) (hij : i ≤ j) :
    ((images.take i).map f).sum ≤ ((images.take j).map f).sum := by
  induction images generalizing i j with
  | nil => simp
  | cons d rest ih =>
    have hrest : ∀ e ∈ rest, 0 ≤ f e := fun e he => hf e (List.mem_cons_of_mem _ he)
    cases j with
    | zero =>
      have : i = 0 := by omega
      subst this
      simp
    | succ k =>
      cases i with
      | zero =>
        have h0 := ih hrest 0 k (Nat.zero_le _)
        have hd := hf d (List.mem_cons_self _ _)
        simp only [List.take_zero, List.map_nil, List.sum_nil, List.take_succ_cons,
          List.map_cons, List.sum_cons] at h0 ⊢
        omega
      | succ l =>
        have := ih hrest l k (by omega)
        simp only [List.take_succ_cons, List.map_cons, List.sum_cons]
        omega

theorem takeSum_le_total (f : imageData → Int) (images : List imageData)
    (hf : ∀ d ∈ images, 0 ≤ f d) (i : Nat) :
    ((images.take i).map f).sum ≤ (images.map f).sum := by
  have h := takeSum_mono f images hf i (max i images.length) (le_max_left _ _)
  rwa [List.take_of_length_le (le_max_right _ _)] at h

theorem takeSum_nonneg (f : imageData → Int) (images : List imageData)
    (hf : ∀ d ∈ images, 0 ≤ f d) (i : Nat) :
    0 ≤ ((images.take i).map f).sum := by
  have h := takeSum_mono f images hf 0 i (Nat.zero_le _)
  simpa using h

theorem mem_of_getElem (images : List imageData) (i : Nat) (imd : imageData)
    (hi : images[i]? = some imd) : imd ∈ images :=
  List.getElem?_mem hi

theorem heightsFit_of_nonneg (images : List imageData) (hnn : ∀ d ∈ images, 0 ≤ d.height)
    (hfit : sumHeights images < 2 ^ 63) : HeightsFit images := by
  intro k
  have h1 := takeSum_nonneg imageData.height images hnn k
  have h2 := takeSum_le_total imageData.height images hnn k
  simp only [sumHeights] at hfit ⊢
  exact ⟨by omega, by omega⟩

theorem widthsFit_of_nonneg (images : List imageData) (hnn : ∀ d ∈ images, 0 ≤ d.width)
    (hfit : sumWidths images < 2 ^ 63) : WidthsFit images := by
  intro k
  have h1 := takeSum_nonneg imageData.width images hnn k
  have h2 := takeSum_le_total imageData.width images hnn k
  simp only [sumWidths] at hfit ⊢
  exact ⟨by omega, by omega⟩

theorem intDims_sample : IntDims [imgA, imgB] := by
  intro d hd
  simp only [List.mem_cons, List.mem_singleton, List.not_mem_nil, or_false] at hd
  rcases hd with rfl | rfl <;> exact ⟨⟨by decide, by decide⟩, ⟨by decide, by decide⟩⟩

theorem heightsFit_sample : HeightsFit [imgA, imgB] := by
  apply heightsFit_of_nonneg
  · intro d hd
    simp only [List.mem_cons, List.mem_singleton, List.not_mem_nil, or_false] at hd
    rcases hd with rfl | rfl <;> decide
  · decide

theorem widthsFit_sample : WidthsFit [imgA, imgB] := by
  apply widthsFit_of_nonneg
  · intro d hd
    simp only [List.mem_cons, List.mem_singleton, List.not_mem_nil, or_false] at hd
    rcases hd with rfl | rfl <;> decide
  · decide

/-! ## The claim about the placement -/

/-- C2, as stated, fails: for three descriptors of heights `2^63 - 1`, 1 and
1, `makeImage` in "bottom" mode hands the third image to `draw.Draw` at the
row `-2^63`, where the sum of the heights of the images before it is
`2^63`. -/
theorem makeImage_cursor_wraps :
    (makeImage roomyEnv emptyWorld 1 1 1 1 [tall, dot, dot] "png" "bottom"
        "combined.png").drawn[2]?
      = some ⟨⟨0, -9223372036854775808⟩, ⟨1, -9223372036854775807⟩⟩ ∧
    sumHeights ([tall, dot, dot].take 2) = 9223372036854775808 := by
  refine ⟨by decide, by decide⟩

/-- C2, amended: for every list of descriptors whose dimensions are values
of the type `int`, and every index `i`: when the canvas can be allocated
and the sums of the heights of the first `k` images are all within the
range of `int`, `makeImage` in "bottom" mode paints the `i`-th image into
the rectangle built by `image.Rect` from the origin `(0, sum of the heights
of the images before it)` and the extent `(width_i, height_i)`; likewise in
"right" mode with the sums of the widths and the origin `(sum of the widths
of the images before it, 0)`.  For non-negative dimensions that origin is
the rectangle's `Min` and origin plus extent its `Max`.  After any number
of iterations the cross-axis coordinate of the cursor is 0, whatever the
dimensions, and under the same condition on the sums the cursor is
`(0, sum of heights so far)` in "bottom" mode and `(sum of widths so far, 0)`
in "right" mode.  Two inputs of height 100 and width 50 occupy the rows [0,100) and
[100,200) in "bottom" mode and the columns [0,50) and [50,100) in "right"
mode. -/
theorem makeImage_placement (env : Env) (w : World) (th tw maxh maxw : Int)
    (images : List imageData) (format outfile : String) (i : Nat) (imd : imageData)
    (hi : images[i]? = some imd) (hty : IntDims images) :
    ((NewRGBA env (Rect 0 0 maxw th)).isSome = true → HeightsFit images →
      (makeImage env w th tw maxh maxw images format "bottom" outfile).drawn[i]?
        = some (bottomPlace images i imd)) ∧
    ((NewRGBA env (Rect 0 0 tw maxh)).isSome = true → WidthsFit images →
      (makeImage env w th tw maxh maxw images format "right" outfile).drawn[i]?
        = some (rightPlace images i imd)) ∧
    (0 ≤ imd.width → 0 ≤ imd.height →
      bottomPlace images i imd =
        ⟨⟨0, sumHeights (images.take i)⟩,
         ⟨imd.width, sumHeights (images.take i) + imd.height⟩⟩ ∧
      rightPlace images i imd =
        ⟨⟨sumWidths (images.take i), 0⟩,
         ⟨sumWidths (images.take i) + imd.width, imd.height⟩⟩) ∧
    (∀ (img : RGBA) (k : Nat),
      ((images.take k).foldl bottomStep ⟨img, 0, 0, []⟩).posx = 0 ∧
      ((images.take k).foldl rightStep ⟨img, 0, 0, []⟩).posy = 0 ∧
      (HeightsFit images →
        ((images.take k).foldl bottomStep ⟨img, 0, 0, []⟩).posy
          = sumHeights (images.take k)) ∧
      (WidthsFit images →
        ((images.take k).foldl rightStep ⟨img, 0, 0, []⟩).posx
          = sumWidths (images.take k))) ∧
    (∀ a b : imageData, a.height = 100 → a.width = 50 → b.height = 100 → b.width = 50 →
      ((NewRGBA env (Rect 0 0 maxw th)).isSome = true →
        (makeImage env w th tw maxh maxw [a, b] format "bottom" outfile).drawn
          = [⟨⟨0, 0⟩, ⟨50, 100⟩⟩, ⟨⟨0, 100⟩, ⟨50, 200⟩⟩]) ∧
      ((NewRGBA env (Rect 0 0 tw maxh)).isSome = true →
        (makeImage env w th tw maxh maxw [a, b] format "right" outfile).drawn
          = [⟨⟨0, 0⟩, ⟨50, 100⟩⟩, ⟨⟨50, 0⟩, ⟨100, 100⟩⟩])) := by
  refine ⟨?_, ?_, ?_, ?_, ?_⟩
  · intro halloc hfit
    obtain ⟨img, himg⟩ := Option.isSome_iff_exists.mp halloc
    rw [(makeImage_painted env w th tw maxh maxw images format "bottom" outfile _
      (paint_bottom env th tw maxh maxw images img himg)).2.1]
    rw [(foldl_bottomStep images _).2.1]
    simp only [List.nil_append]
    rw [bottomRects_getElem images 0 0
      (fun d hd => by rw [zero_add]; exact (hty d hd).1)
      (fun k => by rw [zero_add]; exact hfit k), hi]
    simp [bottomPlace]
  · intro halloc hfit
    obtain ⟨img, himg⟩ := Option.isSome_iff_exists.mp halloc
    rw [(makeImage_painted env w th tw maxh maxw images format "right" outfile _
      (paint_right env th tw maxh maxw images img himg)).2.1]
    rw [(foldl_rightStep images _).2.1]
    simp only [List.nil_append]
    rw [rightRects_getElem images 0 0
      (fun d hd => by rw [zero_add]; exact (hty d hd).2)
      (fun k => by rw [zero_add]; exact hfit k), hi]
    simp [rightPlace]
  · intro hw hh
    constructor
    · simp only [bottomPlace, Rect, zero_add]
      rw [if_neg (by omega), if_neg (by omega), if_neg (by omega), if_neg (by omega)]
    · simp only [rightPlace, Rect, zero_add]
      rw [if_neg (by omega), if_neg (by omega), if_neg (by omega), if_neg (by omega)]
  · intro img k
    have hb := foldl_bottomStep (images.take k) ⟨img, 0, 0, []⟩
    have hr := foldl_rightStep (images.take k) ⟨img, 0, 0, []⟩
    refine ⟨hb.1, hr.1, ?_, ?_⟩
    · intro hfit
      have hk := hfit k
      rw [hb.2.2.2 0 wrapInt_zero.symm, zero_add]
      exact wrapInt_eq _ hk.1 hk.2
    · intro hfit
      have hk := hfit k
      rw [hr.2.2.2 0 wrapInt_zero.symm, zero_add]
      exact wrapInt_eq _ hk.1 hk.2
  · intro a b ha1 ha2 hb1 hb2
    constructor
    · intro halloc
      obtain ⟨img, himg⟩ := Option.isSome_iff_exists.mp halloc
      rw [(makeImage_painted env w th tw maxh maxw [a, b] format "bottom" outfile _
        (paint_bottom env th tw maxh maxw [a, b] img himg)).2.1,
        (foldl_bottomStep [a, b] _).2.1]
      simp only [List.nil_append, bottomRects, ha1, ha2, hb1, hb2]
      decide
    · intro halloc
      obtain ⟨img, himg⟩ := Option.isSome_iff_exists.mp halloc
      rw [(makeImage_painted env w th tw maxh maxw [a, b] format "right" outfile _
        (paint_right env th tw maxh maxw [a, b] img himg)).2.1,
        (foldl_rightStep [a, b] _).2.1]
      simp only [List.nil_append, rightRects, ha1, ha2, hb1, hb2]
      decide

/-- C2, amended, at two 100x50 (height x width) inputs: in "bottom" mode
they occupy the rows [0,100) and [100,200), in "right" mode the columns
[0,50) and [50,100). -/
theorem makeImage_placement_witness :
    (makeImage plainEnv emptyWorld 200 100 100 50 [imgA, imgB] "png" "bottom"
        "combined.png").drawn[0]? = some ⟨⟨0, 0⟩, ⟨50, 100⟩⟩ ∧
    (makeImage plainEnv emptyWorld 200 100 100 50 [imgA, imgB] "png" "bottom"
        "combined.png").drawn[1]? = some ⟨⟨0, 100⟩, ⟨50, 200⟩⟩ ∧
    (makeImage plainEnv emptyWorld 200 100 100 50 [imgA, imgB] "png" "right"
        "combined.png").drawn[0]? = some ⟨⟨0, 0⟩, ⟨50, 100⟩⟩ ∧
    (makeImage plainEnv emptyWorld 200 100 100 50 [imgA, imgB] "png" "right"
        "combined.png").drawn[1]? = some ⟨⟨50, 0⟩, ⟨100, 100⟩⟩ := by
  have h0 := makeImage_placement plainEnv emptyWorld 200 100 100 50 [imgA, imgB] "png"
    "combined.png" 0 imgA rfl intDims_sample
  have h1 := makeImage_placement plainEnv emptyWorld 200 100 100 50 [imgA, imgB] "png"
    "combined.png" 1 imgB rfl intDims_sample
  refine ⟨?_, ?_, ?_, ?_⟩
  · rw [h0.1 (by decide) heightsFit_sample]; decide
  · rw [h1.1 (by decide) heightsFit_sample]; decide
  · rw [h0.2.1 (by decide) widthsFit_sample]; decide
  · rw [h1.2.1 (by decide) widthsFit_sample]; decide

/-! ## Facts about the canvas of `processImages` -/

theorem processImages_of_ok (env : Env) (w : World) (images : List imageData)
    (format side outfile : String) (h : (getTotalDim images).2.2 = none) :
    (processImages env w images format side outfile).made =
      some (makeImage env w (getTotalDim images).1 (getTotalDim images).2.1
        (getMaxDim images).1 (getMaxDim images).2.1 images format side outfile) ∧
    (processImages env w images format side outfile).panicked =
      (makeImage env w (getTotalDim images).1 (getTotalDim images).2.1
        (getMaxDim images).1 (getMaxDim images).2.1 images format side outfile).panicked := by
  unfold processImages
  rcases hg : getTotalDim images with ⟨th, tw, e⟩
  rw [hg] at h
  simp only at h
  subst h
  rw [getMaxDim_eq]
  exact ⟨rfl, rfl⟩

theorem getMaxDim_nonneg (images : List imageData) :
    0 ≤ (getMaxDim images).1 ∧ 0 ≤ (getMaxDim images).2.1 := by
  obtain ⟨⟨h1, _, _⟩, ⟨w1, _, _⟩⟩ := maxLoop_spec images 0 0
  rw [getMaxDim_eq]
  exact ⟨h1, w1⟩

theorem getMaxDim_positive (images : List imageData) (hne : images ≠ [])
    (hpos : PositiveDims images) :
    0 < (getMaxDim images).1 ∧ 0 < (getMaxDim images).2.1 := by
  obtain ⟨⟨_, h2, _⟩, ⟨_, w2, _⟩⟩ := maxLoop_spec images 0 0
  obtain ⟨d0, hd0⟩ := List.exists_mem_of_ne_nil images hne
  have p0 := hpos d0 hd0
  have hh := h2 d0 hd0
  have hw := w2 d0 hd0
  rw [getMaxDim_eq]
  exact ⟨by simp only; omega, by simp only; omega⟩

theorem canvas_bottom (env : Env) (w : World) (images : List imageData)
    (format outfile : String) (hne : images ≠ []) (hpos : PositiveDims images)
    (hH : sumHeights images < 2 ^ 63)
    (halloc : CanAlloc env (getMaxDim images).2.1 (sumHeights images)) :
    ∃ r canvas, (processImages env w images format "bottom" outfile).made = some r ∧
      r.panicked = false ∧
      r.img = some canvas ∧ r.drawn = bottomRects 0 0 images ∧
      canvas = (images.foldl bottomStep
        ⟨⟨⟨⟨0, 0⟩, ⟨(getMaxDim images).2.1, sumHeights images⟩⟩,
          fun _ _ => ColorRGBA.zero⟩, 0, 0, []⟩).img ∧
      canvas.Rect = ⟨⟨0, 0⟩, ⟨(getMaxDim images).2.1, sumHeights images⟩⟩ := by
  obtain ⟨e1, e2⟩ := getTotalDim_ok_bottom images hne hpos hH
  have hnew := NewRGBA_of_canAlloc env (getMaxDim images).2.1 (sumHeights images)
    (getMaxDim_positive images hne hpos).2 (sumHeights_pos images hne hpos) halloc
  have hm := makeImage_painted env w (sumHeights images) (getTotalDim images).2.1
    (getMaxDim images).1 (getMaxDim images).2.1 images format "bottom" outfile _
    (paint_bottom env _ _ _ _ images _ hnew)
  have hf := foldl_bottomStep images
    ⟨⟨⟨⟨0, 0⟩, ⟨(getMaxDim images).2.1, sumHeights images⟩⟩,
      fun _ _ => ColorRGBA.zero⟩, 0, 0, []⟩
  have hmade := (processImages_of_ok env w images format "bottom" outfile e2).1
  rw [e1] at hmade
  refine ⟨_, _, hmade, hm.2.2, hm.1, ?_, rfl, ?_⟩
  · rw [hm.2.1, hf.2.1]; simp
  · rw [hf.2.2.1]

theorem canvas_right (env : Env) (w : World) (images : List imageData)
    (format outfile : String) (hne : images ≠ []) (hpos : PositiveDims images)
    (hW : sumWidths images < 2 ^ 63)
    (halloc : CanAlloc env (sumWidths images) (getMaxDim images).1) :
    ∃ r canvas, (processImages env w images format "right" outfile).made = some r ∧
      r.panicked = false ∧
      r.img = some canvas ∧ r.drawn = rightRects 0 0 images ∧
      canvas = (images.foldl rightStep
        ⟨⟨⟨⟨0, 0⟩, ⟨sumWidths images, (getMaxDim images).1⟩⟩,
          fun _ _ => ColorRGBA.zero⟩, 0, 0, []⟩).img ∧
      canvas.Rect = ⟨⟨0, 0⟩, ⟨sumWidths images, (getMaxDim images).1⟩⟩ := by
  obtain ⟨e1, e2⟩ := getTotalDim_ok_right images hne hpos hW
  have hnew := NewRGBA_of_canAlloc env (sumWidths images) (getMaxDim images).1
    (sumWidths_pos images hne hpos) (getMaxDim_positive images hne hpos).1 halloc
  have hm := makeImage_painted env w (getTotalDim images).1 (sumWidths images)
    (getMaxDim images).1 (getMaxDim images).2.1 images format "right" outfile _
    (paint_right env _ _ _ _ images _ hnew)
  have hf := foldl_rightStep images
    ⟨⟨⟨⟨0, 0⟩, ⟨sumWidths images, (getMaxDim images).1⟩⟩,
      fun _ _ => ColorRGBA.zero⟩, 0, 0, []⟩
  have hmade := (processImages_of_ok env w images format "right" outfile e2).1
  rw [e1] at hmade
  refine ⟨_, _, hmade, hm.2.2, hm.1, ?_, rfl, ?_⟩
  · rw [hm.2.1, hf.2.1]; simp
  · rw [hf.2.2.1]

theorem perm_facts (images images2 : List imageData) (hperm : images.Perm images2)
    (hne : images ≠ []) (hpos : PositiveDims images) :
    images2 ≠ [] ∧ PositiveDims images2 ∧
    sumHeights images2 = sumHeights images ∧ sumWidths images2 = sumWidths images ∧
    (getMaxDim images2).1 = (getMaxDim images).1 ∧
    (getMaxDim images2).2.1 = (getMaxDim images).2.1 := by
  have hne2 : images2 ≠ [] := fun h => hne (by subst h; exact List.Perm.eq_nil hperm)
  have hpos2 : PositiveDims images2 := fun d hd => hpos d (hperm.mem_iff.mpr hd)
  have m1 := getMaxDim_pos images hne hpos
  have m2 := getMaxDim_pos images2 hne2 hpos2
  have ph : (images.map imageData.height).Perm (images2.map imageData.height) := hperm.map _
  have pw : (images.map imageData.width).Perm (images2.map imageData.width) := hperm.map _
  refine ⟨hne2, hpos2, (ph.sum_eq).symm, (pw.sum_eq).symm, ?_, ?_⟩
  · obtain ⟨a1, a2⟩ := List.maximum_eq_coe_iff.mp m1.1
    obtain ⟨b1, b2⟩ := List.maximum_eq_coe_iff.mp m2.1
    exact le_antisymm (a2 _ (ph.mem_iff.mpr b1)) (b2 _ (ph.mem_iff.mp a1))
  · obtain ⟨a1, a2⟩ := List.maximum_eq_coe_iff.mp m1.2
    obtain ⟨b1, b2⟩ := List.maximum_eq_coe_iff.mp m2.2
    exact le_antisymm (a2 _ (pw.mem_iff.mpr b1)) (b2 _ (pw.mem_iff.mp a1))

theorem paintable_perm (env : Env) (images images2 : List imageData) (side : String)
    (hperm : images.Perm images2) (hne : images ≠ []) (hpos : PositiveDims images)
    (hp : Paintable env images side) : Paintable env images2 side := by
  obtain ⟨_, _, e1, e2, e3, e4⟩ := perm_facts images images2 hperm hne hpos
  unfold Paintable at hp ⊢
  rw [e1, e2, e3, e4]
  exact hp

theorem canvas_rect_of_paintable (env : Env) (w : World) (images : List imageData)
    (format side outfile : String) (hne : images ≠ []) (hpos : PositiveDims images)
    (hp : Paintable env images side) :
    ((processImages env w images format side outfile).made.bind MakeResult.img).map RGBA.Rect
      = some (if side = "bottom" then ⟨⟨0, 0⟩, ⟨(getMaxDim images).2.1, sumHeights images⟩⟩
        else ⟨⟨0, 0⟩, ⟨sumWidths images, (getMaxDim images).1⟩⟩) := by
  rcases hp with ⟨hs, hH, halloc⟩ | ⟨hs, hW, halloc⟩
  · subst hs
    obtain ⟨r, canvas, h1, _, h3, _, _, h6⟩ :=
      canvas_bottom env w images format outfile hne hpos hH halloc
    simp [h1, h3, h6]
  · subst hs
    obtain ⟨r, canvas, h1, _, h3, _, _, h6⟩ :=
      canvas_right env w images format outfile hne hpos hW halloc
    have : ¬ ("right" = "bottom") := by decide
    simp [h1, h3, h6, this]

theorem canAlloc_bounds (env : Env) (W H : Int) (hW : 0 < W) (hH : 0 < H)
    (halloc : CanAlloc env W H) : W < 2 ^ 63 ∧ H < 2 ^ 63 := by
  obtain ⟨h1, _⟩ := halloc
  have hWH : 4 * W ≤ 4 * W * H := by nlinarith
  have hHW : H ≤ 4 * W * H := by nlinarith
  exact ⟨by omega, by omega⟩

/-! ## The claim about the size of the canvas -/

/-- C1, as stated, fails: for the list of one descriptor of `2^40` by `2^40`
pixels (positive dimensions), the length of the pixel buffer does not fit an
`int`; `image.NewRGBA` panics, however much memory there is, and no canvas
is allocated. -/
theorem canvas_size_panics :
    [wide] ≠ [] ∧ PositiveDims [wide] ∧
    (processImages roomyEnv emptyWorld [wide] "png" "bottom" "combined.png").panicked = true ∧
    ((processImages roomyEnv emptyWorld [wide] "png" "bottom" "combined.png").made.bind
      MakeResult.img).isNone = true := by
  refine ⟨by simp, ?_, by decide, by decide⟩
  intro d hd
  simp only [List.mem_singleton] at hd
  subst hd
  exact ⟨by decide, by decide⟩

/-- C1, amended: for every non-empty list of descriptors with positive
heights and widths, when the sum of the heights is at most the largest `int`
and the canvas can be allocated, the canvas that `processImages` has
`makeImage` allocate for the side "bottom" starts at the origin and has
width = the maximum input width and height = the sum of the input heights;
when the sum of the widths is at most the largest `int` and the canvas can
be allocated, the canvas for the side "right" has width = the sum of the
input widths and height = the maximum input height.  Under the same
conditions every permutation of the list gives a canvas of the same
bounds. -/
theorem canvas_size (env : Env) (w : World) (images : List imageData)
    (format outfile : String) (hne : images ≠ []) (hpos : PositiveDims images) :
    (sumHeights images < 2 ^ 63 →
      CanAlloc env (getMaxDim images).2.1 (sumHeights images) →
      ∃ r canvas, (processImages env w images format "bottom" outfile).made = some r ∧
        r.panicked = false ∧ r.img = some canvas ∧ canvas.Rect.Min = ⟨0, 0⟩ ∧
        (images.map imageData.width).maximum = (canvas.Rect.Max.X : WithBot Int) ∧
        canvas.Rect.Max.Y = sumHeights images ∧
        canvas.Rect.Dx = canvas.Rect.Max.X ∧ canvas.Rect.Dy = canvas.Rect.Max.Y) ∧
    (sumWidths images < 2 ^ 63 →
      CanAlloc env (sumWidths images) (getMaxDim images).1 →
      ∃ r canvas, (processImages env w images format "right" outfile).made = some r ∧
        r.panicked = false ∧ r.img = some canvas ∧ canvas.Rect.Min = ⟨0, 0⟩ ∧
        canvas.Rect.Max.X = sumWidths images ∧
        (images.map imageData.height).maximum = (canvas.Rect.Max.Y : WithBot Int) ∧
        canvas.Rect.Dx = canvas.Rect.Max.X ∧ canvas.Rect.Dy = canvas.Rect.Max.Y) ∧
    (∀ images2, images.Perm images2 → ∀ side, Paintable env images side →
      Paintable env images2 side ∧
      ((processImages env w images2 format side outfile).made.bind MakeResult.img).map
          RGBA.Rect =
        ((processImages env w images format side outfile).made.bind MakeResult.img).map
          RGBA.Rect) := by
  have hmax := getMaxDim_pos images hne hpos
  have hmp := getMaxDim_positive images hne hpos
  have hsh := sumHeights_pos images hne hpos
  have hsw := sumWidths_pos images hne hpos
  refine ⟨?_, ?_, ?_⟩
  · intro hH halloc
    obtain ⟨r, canvas, h1, h2, h3, _, _, h6⟩ :=
      canvas_bottom env w images format outfile hne hpos hH halloc
    obtain ⟨b1, b2⟩ := canAlloc_bounds env _ _ hmp.2 hsh halloc
    refine ⟨r, canvas, h1, h2, h3, by rw [h6], ?_, by rw [h6], ?_, ?_⟩
    · rw [hmax.2, h6]
    · rw [h6]
      simp only [Rectangle.Dx, sub_zero]
      exact wrapInt_eq _ (by omega) b1
    · rw [h6]
      simp only [Rectangle.Dy, sub_zero]
      exact wrapInt_eq _ (by omega) b2
  · intro hW halloc
    obtain ⟨r, canvas, h1, h2, h3, _, _, h6⟩ :=
      canvas_right env w images format outfile hne hpos hW halloc
    obtain ⟨b1, b2⟩ := canAlloc_bounds env _ _ hsw hmp.1 halloc
    refine ⟨r, canvas, h1, h2, h3, by rw [h6], by rw [h6], ?_, ?_, ?_⟩
    · rw [hmax.1, h6]
    · rw [h6]
      simp only [Rectangle.Dx, sub_zero]
      exact wrapInt_eq _ (by omega) b1
    · rw [h6]
      simp only [Rectangle.Dy, sub_zero]
      exact wrapInt_eq _ (by omega) b2
  · intro images2 hperm side hp
    obtain ⟨hne2, hpos2, e1, e2, e3, e4⟩ := perm_facts images images2 hperm hne hpos
    have hp2 := paintable_perm env images images2 side hperm hne hpos hp
    refine ⟨hp2, ?_⟩
    rw [canvas_rect_of_paintable env w images format side outfile hne hpos hp,
      canvas_rect_of_paintable env w images2 format side outfile hne2 hpos2 hp2,
      e1, e2, e3, e4]

theorem paintable_sample_bottom : Paintable plainEnv [imgA, imgC] "bottom" :=
  Or.inl ⟨rfl, by decide, by decide, by decide⟩

theorem paintable_sample_right : Paintable plainEnv [imgA, imgC] "right" :=
  Or.inr ⟨rfl, by decide, by decide, by decide⟩

/-- C1, amended, at a 100x50 and a 30x20 image (height x width): the
"bottom" canvas is 50 wide and 130 high, the "right" canvas 70 wide and 100
high, also with the two images swapped. -/
theorem canvas_size_witness :
    ((processImages plainEnv emptyWorld [imgA, imgC] "png" "bottom"
        "combined.png").made.bind MakeResult.img).map RGBA.Rect
      = some ⟨⟨0, 0⟩, ⟨50, 130⟩⟩ ∧
    ((processImages plainEnv emptyWorld [imgC, imgA] "png" "bottom"
        "combined.png").made.bind MakeResult.img).map RGBA.Rect
      = some ⟨⟨0, 0⟩, ⟨50, 130⟩⟩ ∧
    ((processImages plainEnv emptyWorld [imgC, imgA] "png" "right"
        "combined.png").made.bind MakeResult.img).map RGBA.Rect
      = some ⟨⟨0, 0⟩, ⟨70, 100⟩⟩ := by
  have h := canvas_size plainEnv emptyWorld [imgA, imgC] "png" "combined.png"
    (by simp) positiveDims_sample
  have hb : ((processImages plainEnv emptyWorld [imgA, imgC] "png" "bottom"
        "combined.png").made.bind MakeResult.img).map RGBA.Rect
      = some ⟨⟨0, 0⟩, ⟨50, 130⟩⟩ := by
    obtain ⟨r, canvas, h1, _, h3, h4, h5, h6, _, _⟩ := h.1 (by decide) ⟨by decide, by decide⟩
    have e5 : canvas.Rect.Max.X = 50 := by
      have : ([imgA, imgC].map imageData.width).maximum = ((50 : Int) : WithBot Int) := by
        decide
      rw [this] at h5
      exact (WithBot.coe_injective h5).symm
    have e6 : canvas.Rect.Max.Y = 130 := by rw [h6]; decide
    rcases hc : canvas.Rect with ⟨mn, ⟨mx, my⟩⟩
    rw [hc] at h4 e5 e6
    simp only at h4 e5 e6
    subst h4 e5 e6
    simp [h1, h3, hc]
  have hr : ((processImages plainEnv emptyWorld [imgA, imgC] "png" "right"
        "combined.png").made.bind MakeResult.img).map RGBA.Rect
      = some ⟨⟨0, 0⟩, ⟨70, 100⟩⟩ := by
    obtain ⟨r, canvas, h1, _, h3, h4, h5, h6, _, _⟩ := h.2.1 (by decide) ⟨by decide, by decide⟩
    have e6 : canvas.Rect.Max.Y = 100 := by
      have : ([imgA, imgC].map imageData.height).maximum = ((100 : Int) : WithBot Int) := by
        decide
      rw [this] at h6
      exact (WithBot.coe_injective h6).symm
    have e5 : canvas.Rect.Max.X = 70 := by rw [h5]; decide
    rcases hc : canvas.Rect with ⟨mn, ⟨mx, my⟩⟩
    rw [hc] at h4 e5 e6
    simp only at h4 e5 e6
    subst h4 e5 e6
    simp [h1, h3, hc]
  refine ⟨hb, ?_, ?_⟩
  · rw [(h.2.2 [imgC, imgA] (List.Perm.swap _ _ _) "bottom" paintable_sample_bottom).2]
    exact hb
  · rw [(h.2.2 [imgC, imgA] (List.Perm.swap _ _ _) "right" paintable_sample_right).2]
    exact hr

/-! ## Facts about `draw.Draw` on a blank canvas -/

theorem overPixel_zero (s : Color) : overPixel ColorRGBA.zero s = srcPixel s := by
  simp [overPixel, overChannel, srcPixel, ColorRGBA.zero, u32]

theorem srcPixel_valid (s : Color) (hs : s.Valid) : srcPixel s = rgbaModel s := by
  obtain ⟨h1, h2, h3, h4⟩ := hs
  have key : ∀ n : Nat, n ≤ 0xffff → u32 (n * m) / m = n := by
    intro n hn
    have : n * m < 2 ^ 32 := by simp only [m]; omega
    rw [u32, Nat.mod_eq_of_lt this]
    simp [m]
  simp only [srcPixel, rgbaModel, key _ h1, key _ h2, key _ h3, key _ h4, u8]
  norm_num

theorem clip_whole (dst : RGBA) (src : Image) (ox oy w h W H : Int)
    (hR : dst.Rect = ⟨⟨0, 0⟩, ⟨W, H⟩⟩) (hB : src.Bounds = ⟨⟨0, 0⟩, ⟨w, h⟩⟩)
    (hw : 0 < w) (hh : 0 < h) (hox : 0 ≤ ox) (hoy : 0 ≤ oy)
    (hW : ox + w ≤ W) (hH : oy + h ≤ H) (hWi : W < 2 ^ 63) (hHi : H < 2 ^ 63) :
    clip dst ⟨⟨ox, oy⟩, ⟨ox + w, oy + h⟩⟩ src ⟨0, 0⟩ =
      (⟨⟨ox, oy⟩, ⟨ox + w, oy + h⟩⟩, ⟨0, 0⟩) := by
  have hE : (decide (ox ≥ ox + w) || decide (oy ≥ oy + h)) = false := by
    simp only [Bool.or_eq_false_iff, decide_eq_false_iff_not]
    constructor <;> omega
  have e1 : (Rectangle.mk ⟨ox, oy⟩ ⟨ox + w, oy + h⟩).Intersect dst.Rect =
      ⟨⟨ox, oy⟩, ⟨ox + w, oy + h⟩⟩ := by
    have i1 : (if ox < 0 then 0 else ox) = ox := if_neg (by omega)
    have i2 : (if oy < 0 then 0 else oy) = oy := if_neg (by omega)
    have i3 : (if ox + w > W then W else ox + w) = ox + w := if_neg (by omega)
    have i4 : (if oy + h > H then H else oy + h) = oy + h := if_neg (by omega)
    rw [hR]
    simp only [Rectangle.Intersect, Rectangle.Empty, i1, i2, i3, i4, hE]
    rfl
  have a1 : wrapInt (ox - 0) = ox := by rw [sub_zero]; exact wrapInt_eq _ (by omega) (by omega)
  have a2 : wrapInt (oy - 0) = oy := by rw [sub_zero]; exact wrapInt_eq _ (by omega) (by omega)
  have a3 : wrapInt (0 + ox) = ox := by rw [zero_add]; exact wrapInt_eq _ (by omega) (by omega)
  have a4 : wrapInt (0 + oy) = oy := by rw [zero_add]; exact wrapInt_eq _ (by omega) (by omega)
  have a5 : wrapInt (w + ox) = ox + w := by
    rw [add_comm]; exact wrapInt_eq _ (by omega) (by omega)
  have a6 : wrapInt (h + oy) = oy + h := by
    rw [add_comm]; exact wrapInt_eq _ (by omega) (by omega)
  have e2 : (Rectangle.mk ⟨ox, oy⟩ ⟨ox + w, oy + h⟩).Intersect
      (src.Bounds.Add ((Point.mk ox oy).Sub ⟨0, 0⟩)) = ⟨⟨ox, oy⟩, ⟨ox + w, oy + h⟩⟩ := by
    have i1 : (if ox < ox then ox else ox) = ox := if_neg (by omega)
    have i2 : (if oy < oy then oy else oy) = oy := if_neg (by omega)
    have i3 : (if ox + w > ox + w then ox + w else ox + w) = ox + w := if_neg (by omega)
    have i4 : (if oy + h > oy + h then oy + h else oy + h) = oy + h := if_neg (by omega)
    rw [hB]
    simp only [Rectangle.Intersect, Rectangle.Empty, Rectangle.Add, Point.Sub, a1, a2, a3, a4,
      a5, a6, i1, i2, i3, i4, hE]
    rfl
  simp only [clip, e1, e2, sub_self, wrapInt_zero, add_zero]

theorem Draw_Pix (dst : RGBA) (src : Image) (ox oy w h W H : Int)
    (hR : dst.Rect = ⟨⟨0, 0⟩, ⟨W, H⟩⟩) (hB : src.Bounds = ⟨⟨0, 0⟩, ⟨w, h⟩⟩)
    (hw : 0 < w) (hh : 0 < h) (hox : 0 ≤ ox) (hoy : 0 ≤ oy)
    (hW : ox + w ≤ W) (hH : oy + h ≤ H) (hWi : W < 2 ^ 63) (hHi : H < 2 ^ 63)
    (x y : Int) :
    (Draw dst (Rect ox oy (ox + w) (oy + h)) src ⟨0, 0⟩).Pix x y =
      if ox ≤ x ∧ x < ox + w ∧ oy ≤ y ∧ y < oy + h then
        overPixel (dst.Pix x y) (src.At (x - ox) (y - oy))
      else dst.Pix x y := by
  rw [Rect_of_le ox oy (ox + w) (oy + h) (by omega) (by omega)]
  have hE : (decide (ox ≥ ox + w) || decide (oy ≥ oy + h)) = false := by
    simp only [Bool.or_eq_false_iff, decide_eq_false_iff_not]
    constructor <;> omega
  simp only [Draw, clip_whole dst src ox oy w h W H hR hB hw hh hox hoy hW hH hWi hHi,
    Rectangle.Empty, hE, Point.In, zero_add, Bool.and_eq_true, decide_eq_true_eq]
  by_cases hin : ox ≤ x ∧ x < ox + w ∧ oy ≤ y ∧ y < oy + h
  · rw [if_pos hin]
    obtain ⟨a, b, c, d⟩ := hin
    have ex : wrapInt (wrapInt (x - ox)) = x - ox := by
      rw [wrapInt_eq (x - ox) (by omega) (by omega)]
      exact wrapInt_eq _ (by omega) (by omega)
    have ey : wrapInt (wrapInt (y - oy)) = y - oy := by
      rw [wrapInt_eq (y - oy) (by omega) (by omega)]
      exact wrapInt_eq _ (by omega) (by omega)
    simp [a, b, c, d, ex, ey]
  · rw [if_neg hin]
    have : ¬ (((ox ≤ x ∧ x < ox + w) ∧ oy ≤ y) ∧ y < oy + h) := by
      rintro ⟨⟨⟨a, b⟩, c⟩, d⟩
      exact hin ⟨a, b, c, d⟩
    simp [this]

theorem Fits.tail {W H : Int} {d : imageData} {rest : List imageData}
    (h : Fits W H (d :: rest)) : Fits W H rest :=
  fun e he => h e (List.mem_cons_of_mem _ he)

theorem Fits.heights {W H : Int} {images : List imageData} (h : Fits W H images) :
    ∀ d ∈ images, 0 ≤ d.height := fun d hd => le_of_lt (h d hd).1

theorem Fits.widths {W H : Int} {images : List imageData} (h : Fits W H images) :
    ∀ d ∈ images, 0 ≤ d.width := fun d hd => le_of_lt (h d hd).2.1

theorem bottom_loop_pixels (images : List imageData) (W H : Int) (hWi : W < 2 ^ 63)
    (hHi : H < 2 ^ 63) (s : Painter)
    (hx : s.posx = 0) (hR : s.img.Rect = ⟨⟨0, 0⟩, ⟨W, H⟩⟩) (hy : 0 ≤ s.posy)
    (hfit : Fits W H images) (hsum : s.posy + sumHeights images ≤ H) :
    (∀ (i : Nat) (imd : imageData), images[i]? = some imd → ∀ x y : Int,
      0 ≤ x → x < imd.width →
      s.posy + sumHeights (images.take i) ≤ y →
      y < s.posy + sumHeights (images.take i) + imd.height →
      (images.foldl bottomStep s).img.Pix x y =
        overPixel (s.img.Pix x y)
          (imd.img.At x (y - (s.posy + sumHeights (images.take i))))) ∧
    (∀ x y : Int,
      (∀ (i : Nat) (imd : imageData), images[i]? = some imd →
        ¬ (0 ≤ x ∧ x < imd.width ∧ s.posy + sumHeights (images.take i) ≤ y ∧
          y < s.posy + sumHeights (images.take i) + imd.height)) →
      (images.foldl bottomStep s).img.Pix x y = s.img.Pix x y) := by
  induction images generalizing s with
  | nil =>
    refine ⟨fun i imd hi => by simp at hi, fun x y _ => rfl⟩
  | cons d rest ih =>
    obtain ⟨d1, d2, d3, d4, d5⟩ := hfit d (List.mem_cons_self _ _)
    have hsum2 : s.posy + d.height + sumHeights rest ≤ H := by
      rw [sumHeights_cons] at hsum; omega
    have hrest_nonneg : 0 ≤ sumHeights rest := by
      have := takeSum_nonneg imageData.height rest hfit.tail.heights rest.length
      simpa [sumHeights] using this
    have ew : wrapInt (0 + d.width) = 0 + d.width := wrapInt_eq _ (by omega) (by omega)
    have eh : wrapInt (s.posy + d.height) = s.posy + d.height :=
      wrapInt_eq _ (by omega) (by omega)
    have hstep : ∀ x y : Int, (bottomStep s d).img.Pix x y =
        if 0 ≤ x ∧ x < 0 + d.width ∧ s.posy ≤ y ∧ y < s.posy + d.height then
          overPixel (s.img.Pix x y) (d.img.At (x - 0) (y - s.posy))
        else s.img.Pix x y := by
      intro x y
      simp only [bottomStep, hx, ew, eh]
      exact Draw_Pix s.img d.img 0 s.posy d.width d.height W H hR d5 d2 d1 (le_refl _) hy
        (by omega) (by omega) hWi hHi x y
    obtain ⟨iha, ihb⟩ := ih (bottomStep s d) (by simp [bottomStep, hx])
      (by simp only [bottomStep]; rw [Draw_Rect]; exact hR)
      (by simp only [bottomStep, eh]; omega) hfit.tail
      (by simp only [bottomStep, eh]; exact hsum2)
    have hposy : (bottomStep s d).posy = s.posy + d.height := by simp only [bottomStep, eh]
    rw [hposy] at iha ihb
    simp only [List.foldl_cons]
    constructor
    · intro i imd hi x y hx0 hx1 hy0 hy1
      cases i with
      | zero =>
        simp only [List.getElem?_cons_zero, Option.some.injEq] at hi
        subst hi
        simp only [List.take_zero, sumHeights, List.map_nil, List.sum_nil, add_zero] at hy0 hy1 ⊢
        rw [ihb x y, hstep x y, if_pos ⟨hx0, by omega, hy0, hy1⟩]
        · simp
        · intro j e hj hcon
          have := takeSum_nonneg imageData.height rest hfit.tail.heights j
          simp only [sumHeights] at hcon
          omega
      | succ j =>
        simp only [List.getElem?_cons_succ] at hi
        have hnn := takeSum_nonneg imageData.height rest hfit.tail.heights j
        simp only [List.take_succ_cons, sumHeights_cons] at hy0 hy1 ⊢
        simp only [sumHeights] at hnn hy0 hy1
        rw [iha j imd hi x y hx0 hx1 (by simp only [sumHeights]; omega)
          (by simp only [sumHeights]; omega), hstep x y, if_neg (by omega)]
        congr 2
        ring
    · intro x y hout
      rw [ihb x y, hstep x y, if_neg]
      · have h0 := hout 0 d (by simp)
        simp only [List.take_zero, sumHeights, List.map_nil, List.sum_nil, add_zero] at h0
        intro hc
        exact h0 ⟨hc.1, by omega, hc.2.2.1, hc.2.2.2⟩
      · intro j e hj hcon
        have h1 := hout (j + 1) e (by simpa using hj)
        apply h1
        simp only [List.take_succ_cons, sumHeights_cons]
        refine ⟨hcon.1, hcon.2.1, by omega, by omega⟩

theorem right_loop_pixels (images : List imageData) (W H : Int) (hWi : W < 2 ^ 63)
    (hHi : H < 2 ^ 63) (s : Painter)
    (hy : s.posy = 0) (hR : s.img.Rect = ⟨⟨0, 0⟩, ⟨W, H⟩⟩) (hx : 0 ≤ s.posx)
    (hfit : Fits W H images) (hsum : s.posx + sumWidths images ≤ W) :
    (∀ (i : Nat) (imd : imageData), images[i]? = some imd → ∀ x y : Int,
      s.posx + sumWidths (images.take i) ≤ x →
      x < s.posx + sumWidths (images.take i) + imd.width →
      0 ≤ y → y < imd.height →
      (images.foldl rightStep s).img.Pix x y =
        overPixel (s.img.Pix x y)
          (imd.img.At (x - (s.posx + sumWidths (images.take i))) y)) ∧
    (∀ x y : Int,
      (∀ (i : Nat) (imd : imageData), images[i]? = some imd →
        ¬ (s.posx + sumWidths (images.take i) ≤ x ∧
          x < s.posx + sumWidths (images.take i) + imd.width ∧ 0 ≤ y ∧ y < imd.height)) →
      (images.foldl rightStep s).img.Pix x y = s.img.Pix x y) := by
  induction images generalizing s with
  | nil =>
    refine ⟨fun i imd hi => by simp at hi, fun x y _ => rfl⟩
  | cons d rest ih =>
    obtain ⟨d1, d2, d3, d4, d5⟩ := hfit d (List.mem_cons_self _ _)
    have hsum2 : s.posx + d.width + sumWidths rest ≤ W := by
      rw [sumWidths_cons] at hsum; omega
    have hrest_nonneg : 0 ≤ sumWidths rest := by
      have := takeSum_nonneg imageData.width rest hfit.tail.widths rest.length
      simpa [sumWidths] using this
    have ew : wrapInt (s.posx + d.width) = s.posx + d.width :=
      wrapInt_eq _ (by omega) (by omega)
    have eh : wrapInt (0 + d.height) = 0 + d.height := wrapInt_eq _ (by omega) (by omega)
    have hstep : ∀ x y : Int, (rightStep s d).img.Pix x y =
        if s.posx ≤ x ∧ x < s.posx + d.width ∧ 0 ≤ y ∧ y < 0 + d.height then
          overPixel (s.img.Pix x y) (d.img.At (x - s.posx) (y - 0))
        else s.img.Pix x y := by
      intro x y
      simp only [rightStep, hy, ew, eh]
      exact Draw_Pix s.img d.img s.posx 0 d.width d.height W H hR d5 d2 d1 hx (le_refl _)
        (by omega) (by omega) hWi hHi x y
    obtain ⟨iha, ihb⟩ := ih (rightStep s d) (by simp [rightStep, hy])
      (by simp only [rightStep]; rw [Draw_Rect]; exact hR)
      (by simp only [rightStep, ew]; omega) hfit.tail
      (by simp only [rightStep, ew]; exact hsum2)
    have hposx : (rightStep s d).posx = s.posx + d.width := by simp only [rightStep, ew]
    rw [hposx] at iha ihb
    simp only [List.foldl_cons]
    constructor
    · intro i imd hi x y hx0 hx1 hy0 hy1
      cases i with
      | zero =>
        simp only [List.getElem?_cons_zero, Option.some.injEq] at hi
        subst hi
        simp only [List.take_zero, sumWidths, List.map_nil, List.sum_nil, add_zero] at hx0 hx1 ⊢
        rw [ihb x y, hstep x y, if_pos ⟨hx0, hx1, hy0, by omega⟩]
        · simp
        · intro j e hj hcon
          have := takeSum_nonneg imageData.width rest hfit.tail.widths j
          simp only [sumWidths] at hcon
          omega
      | succ j =>
        simp only [List.getElem?_cons_succ] at hi
        have hnn := takeSum_nonneg imageData.width rest hfit.tail.widths j
        simp only [List.take_succ_cons, sumWidths_cons] at hx0 hx1 ⊢
        simp only [sumWidths] at hnn hx0 hx1
        rw [iha j imd hi x y (by simp only [sumWidths]; omega)
          (by simp only [sumWidths]; omega) hy0 hy1, hstep x y, if_neg (by omega)]
        congr 2
        ring
    · intro x y hout
      rw [ihb x y, hstep x y, if_neg]
      · have h0 := hout 0 d (by simp)
        simp only [List.take_zero, sumWidths, List.map_nil, List.sum_nil, add_zero] at h0
        intro hc
        exact h0 ⟨hc.1, hc.2.1, hc.2.2.1, by omega⟩
      · intro j e hj hcon
        have h1 := hout (j + 1) e (by simpa using hj)
        apply h1
        simp only [List.take_succ_cons, sumWidths_cons]
        refine ⟨by omega, by omega, hcon.2.2.1, hcon.2.2.2⟩

/-! ## Facts about the places of the images -/

theorem placement_bounds (images : List imageData) (hpos : PositiveDims images)
    (i : Nat) (imd : imageData) (hi : images[i]? = some imd) :
    0 < imd.width ∧ 0 < imd.height ∧
    0 ≤ sumHeights (images.take i) ∧ 0 ≤ sumWidths (images.take i) ∧
    sumHeights (images.take i) + imd.height ≤ sumHeights images ∧
    sumWidths (images.take i) + imd.width ≤ sumWidths images ∧
    imd.height ≤ (getMaxDim images).1 ∧ imd.width ≤ (getMaxDim images).2.1 := by
  have hmem := mem_of_getElem images i imd hi
  have hh : ∀ d ∈ images, 0 ≤ d.height := fun d hd => le_of_lt (hpos d hd).1
  have hw : ∀ d ∈ images, 0 ≤ d.width := fun d hd => le_of_lt (hpos d hd).2
  obtain ⟨⟨_, m1, _⟩, ⟨_, m2, _⟩⟩ := maxLoop_spec images 0 0
  refine ⟨(hpos imd hmem).2, (hpos imd hmem).1, takeSum_nonneg _ images hh i,
    takeSum_nonneg _ images hw i, ?_, ?_, m1 imd hmem, m2 imd hmem⟩
  · have := takeSum_le_total imageData.height images hh (i + 1)
    rw [takeSum_succ imageData.height images i imd hi] at this
    exact this
  · have := takeSum_le_total imageData.width images hw (i + 1)
    rw [takeSum_succ imageData.width images i imd hi] at this
    exact this

theorem placement_order (images : List imageData) (hpos : PositiveDims images)
    (i j : Nat) (imd : imageData) (hi : images[i]? = some imd) (hij : i < j) :
    sumHeights (images.take i) + imd.height ≤ sumHeights (images.take j) ∧
    sumWidths (images.take i) + imd.width ≤ sumWidths (images.take j) := by
  have hh : ∀ d ∈ images, 0 ≤ d.height := fun d hd => le_of_lt (hpos d hd).1
  have hw : ∀ d ∈ images, 0 ≤ d.width := fun d hd => le_of_lt (hpos d hd).2
  constructor
  · have := takeSum_mono imageData.height images hh (i + 1) j hij
    rw [takeSum_succ imageData.height images i imd hi] at this
    exact this
  · have := takeSum_mono imageData.width images hw (i + 1) j hij
    rw [takeSum_succ imageData.width images i imd hi] at this
    exact this

theorem widths_lt_of_max (images : List imageData) (hM : (getMaxDim images).2.1 < 2 ^ 63) :
    ∀ d ∈ images, d.width < 2 ^ 63 := by
  obtain ⟨_, ⟨_, w2, _⟩⟩ := maxLoop_spec images 0 0
  rw [getMaxDim_eq] at hM
  intro d hd
  have := w2 d hd
  simp only at hM
  omega

theorem heights_lt_of_max (images : List imageData) (hM : (getMaxDim images).1 < 2 ^ 63) :
    ∀ d ∈ images, d.height < 2 ^ 63 := by
  obtain ⟨⟨_, h2, _⟩, _⟩ := maxLoop_spec images 0 0
  rw [getMaxDim_eq] at hM
  intro d hd
  have := h2 d hd
  simp only at hM
  omega

theorem bottom_drawn_of_image (images : List imageData) (hpos : PositiveDims images)
    (hH : sumHeights images < 2 ^ 63) (hM : (getMaxDim images).2.1 < 2 ^ 63)
    (i : Nat) (imd : imageData) (hi : images[i]? = some imd) :
    (bottomRects 0 0 images)[i]? = some (bottomPlace images i imd) ∧
    bottomPlace images i imd = ⟨⟨0, sumHeights (images.take i)⟩,
      ⟨imd.width, sumHeights (images.take i) + imd.height⟩⟩ := by
  obtain ⟨b1, b2, b3, _⟩ := placement_bounds images hpos i imd hi
  have hfit := heightsFit_of_nonneg images (fun d hd => le_of_lt (hpos d hd).1) hH
  have hw := widths_lt_of_max images hM
  constructor
  · rw [bottomRects_getElem images 0 0
      (fun d hd => by
        rw [zero_add]
        have := (hpos d hd).2
        have := hw d hd
        exact ⟨by omega, by omega⟩)
      (fun k => by rw [zero_add]; exact hfit k), hi]
    simp [bottomPlace]
  · simp only [bottomPlace, zero_add]
    rw [Rect_of_le _ _ _ _ (by omega) (by omega)]

theorem right_drawn_of_image (images : List imageData) (hpos : PositiveDims images)
    (hW : sumWidths images < 2 ^ 63) (hM : (getMaxDim images).1 < 2 ^ 63)
    (i : Nat) (imd : imageData) (hi : images[i]? = some imd) :
    (rightRects 0 0 images)[i]? = some (rightPlace images i imd) ∧
    rightPlace images i imd = ⟨⟨sumWidths (images.take i), 0⟩,
      ⟨sumWidths (images.take i) + imd.width, imd.height⟩⟩ := by
  obtain ⟨b1, b2, _, b4, _⟩ := placement_bounds images hpos i imd hi
  have hfit := widthsFit_of_nonneg images (fun d hd => le_of_lt (hpos d hd).2) hW
  have hh := heights_lt_of_max images hM
  constructor
  · rw [rightRects_getElem images 0 0
      (fun d hd => by
        rw [zero_add]
        have := (hpos d hd).1
        have := hh d hd
        exact ⟨by omega, by omega⟩)
      (fun k => by rw [zero_add]; exact hfit k), hi]
    simp [rightPlace]
  · simp only [rightPlace, zero_add]
    rw [Rect_of_le _ _ _ _ (by omega) (by omega)]

theorem image_of_drawn (rects : List Rectangle) (images : List imageData)
    (hlen : rects.length = images.length) (i : Nat) (ri : Rectangle)
    (hri : rects[i]? = some ri) : ∃ imd, images[i]? = some imd := by
  have hlt : i < rects.length := by
    rcases Nat.lt_or_ge i rects.length with h | h
    · exact h
    · rw [List.getElem?_eq_none h] at hri
      simp at hri
  rw [hlen] at hlt
  exact ⟨images[i], List.getElem?_eq_getElem hlt⟩

theorem placeOf_bottom (images : List imageData) (i : Nat) (imd : imageData) :
    placeOf "bottom" images i imd = bottomPlace images i imd := by
  simp [placeOf]

theorem placeOf_right (images : List imageData) (i : Nat) (imd : imageData) :
    placeOf "right" images i imd = rightPlace images i imd := by
  have : ¬ ("right" = "bottom") := by decide
  simp [placeOf, this]

/-! ## The claim about the regions -/

/-- C9, as stated, fails: for three descriptors of width 1 and heights
`2^63 - 1`, `2^63 - 1` and 3 stacked bottom-wise, the total height wraps
around to 1; the canvas is 1 by 1, the first rectangle is not contained in
it, and the first two rectangles overlap. -/
theorem regions_wrap_and_overlap :
    [tall, tall, bar] ≠ [] ∧ PositiveDims [tall, tall, bar] ∧
    (processImages roomyEnv emptyWorld [tall, tall, bar] "png" "bottom"
        "combined.png").made.map MakeResult.drawn
      = some [⟨⟨0, 0⟩, ⟨1, 9223372036854775807⟩⟩, ⟨⟨0, -2⟩, ⟨1, 9223372036854775807⟩⟩,
          ⟨⟨0, -2⟩, ⟨1, 1⟩⟩] ∧
    ((processImages roomyEnv emptyWorld [tall, tall, bar] "png" "bottom"
        "combined.png").made.bind MakeResult.img).map RGBA.Rect
      = some ⟨⟨0, 0⟩, ⟨1, 1⟩⟩ ∧
    (Rectangle.mk ⟨0, 0⟩ ⟨1, 9223372036854775807⟩).In ⟨⟨0, 0⟩, ⟨1, 1⟩⟩ = false ∧
    (Rectangle.mk ⟨0, 0⟩ ⟨1, 9223372036854775807⟩).Overlaps
      ⟨⟨0, -2⟩, ⟨1, 9223372036854775807⟩⟩ = true := by
  refine ⟨by simp, ?_, by decide, by decide, by decide, by decide⟩
  intro d hd
  simp only [List.mem_cons, List.mem_singleton, List.not_mem_nil, or_false] at hd
  rcases hd with rfl | rfl | rfl <;> exact ⟨by decide, by decide⟩

/-- C9, amended: for every non-empty list of descriptors with positive
heights and widths and for either side, when the sum of the dimensions along
that side is at most the largest `int` and the canvas can be allocated,
`makeImage` paints one rectangle for each image, at the place of that image;
each rectangle is non-empty and lies within the bounds of the allocated
canvas, and two different ones never overlap: no point of the canvas lies in
both.  When moreover the pixel bounds of every image are
`(0,0)-(width_i,height_i)`, the clipping of `draw.Draw` leaves each
rectangle and the source point as they are: no source pixel is clipped. -/
theorem regions_disjoint_and_inside (env : Env) (w : World) (images : List imageData)
    (format side outfile : String) (hne : images ≠ []) (hpos : PositiveDims images)
    (hp : Paintable env images side) :
    ∃ r canvas, (processImages env w images format side outfile).made = some r ∧
      r.panicked = false ∧
      r.img = some canvas ∧ r.drawn.length = images.length ∧
      (∀ (i : Nat) (imd : imageData), images[i]? = some imd →
        r.drawn[i]? = some (placeOf side images i imd)) ∧
      (∀ (i : Nat) (ri : Rectangle), r.drawn[i]? = some ri →
        ri.Empty = false ∧ ri.In canvas.Rect = true) ∧
      (∀ (i j : Nat) (ri rj : Rectangle), i < j →
        r.drawn[i]? = some ri → r.drawn[j]? = some rj →
        ri.Overlaps rj = false ∧ rj.Overlaps ri = false ∧
        ∀ x y, ¬ ((Point.mk x y).In ri = true ∧ (Point.mk x y).In rj = true)) ∧
      (ZeroBased images →
        ∀ (i : Nat) (imd : imageData) (ri : Rectangle), images[i]? = some imd →
          r.drawn[i]? = some ri → clip canvas ri imd.img ⟨0, 0⟩ = (ri, ⟨0, 0⟩)) := by
  have hmp := getMaxDim_positive images hne hpos
  have hsh := sumHeights_pos images hne hpos
  have hsw := sumWidths_pos images hne hpos
  rcases hp with ⟨hs, hH, halloc⟩ | ⟨hs, hW, halloc⟩
  · subst hs
    obtain ⟨r, canvas, h1, h2, h3, h4, _, h6⟩ :=
      canvas_bottom env w images format outfile hne hpos hH halloc
    obtain ⟨c1, c2⟩ := canAlloc_bounds env _ _ hmp.2 hsh halloc
    have hlen : r.drawn.length = images.length := by rw [h4, bottomRects_length]
    have hat : ∀ (i : Nat) (ri : Rectangle), r.drawn[i]? = some ri →
        ∃ imd, images[i]? = some imd ∧
          ri = ⟨⟨0, sumHeights (images.take i)⟩,
            ⟨imd.width, sumHeights (images.take i) + imd.height⟩⟩ := by
      intro i ri hri
      obtain ⟨imd, hi⟩ := image_of_drawn r.drawn images hlen i ri hri
      obtain ⟨d1, d2⟩ := bottom_drawn_of_image images hpos hH c1 i imd hi
      rw [h4, d1, d2] at hri
      exact ⟨imd, hi, (Option.some.inj hri).symm⟩
    refine ⟨r, canvas, h1, h2, h3, hlen, ?_, ?_, ?_, ?_⟩
    · intro i imd hi
      rw [h4, placeOf_bottom]
      exact (bottom_drawn_of_image images hpos hH c1 i imd hi).1
    · intro i ri hri
      obtain ⟨imd, hi, rfl⟩ := hat i ri hri
      obtain ⟨b1, b2, b3, b4, b5, b6, b7, b8⟩ := placement_bounds images hpos i imd hi
      rw [h6]
      simp only [Rectangle.Empty, Rectangle.In, Bool.or_eq_false_iff, decide_eq_false_iff_not,
        Bool.and_eq_true, decide_eq_true_eq, Bool.if_true_left, Bool.or_eq_true,
        Bool.not_eq_true', Bool.decide_eq_true]
      refine ⟨⟨by omega, by omega⟩, ?_⟩
      right
      exact ⟨⟨⟨le_refl _, b8⟩, b3⟩, b5⟩
    · intro i j ri rj hij hri hrj
      obtain ⟨di, hi, rfl⟩ := hat i ri hri
      obtain ⟨dj, hj, rfl⟩ := hat j rj hrj
      have ho := (placement_order images hpos i j di hi hij).1
      simp only [Rectangle.Overlaps, Rectangle.Empty, Point.In, Bool.and_eq_false_iff,
        Bool.and_eq_true, decide_eq_true_eq, decide_eq_false_iff_not, not_and, not_lt]
      refine ⟨?_, ?_, ?_⟩
      · right; exact ho
      · left; right; exact ho
      · intro x y hxy1 hxy2; omega
    · intro hzb i imd ri hi hri
      obtain ⟨d1, d2⟩ := bottom_drawn_of_image images hpos hH c1 i imd hi
      rw [h4, d1, d2] at hri
      have hri2 := (Option.some.inj hri).symm
      subst hri2
      obtain ⟨b1, b2, b3, b4, b5, b6, b7, b8⟩ := placement_bounds images hpos i imd hi
      have := clip_whole canvas imd.img 0 (sumHeights (images.take i)) imd.width imd.height
        _ _ h6 (hzb imd (List.getElem?_mem hi)) b1 b2 (le_refl _) b3 (by omega) b5 c1 c2
      rw [zero_add] at this
      exact this
  · subst hs
    obtain ⟨r, canvas, h1, h2, h3, h4, _, h6⟩ :=
      canvas_right env w images format outfile hne hpos hW halloc
    obtain ⟨c1, c2⟩ := canAlloc_bounds env _ _ hsw hmp.1 halloc
    have hlen : r.drawn.length = images.length := by rw [h4, rightRects_length]
    have hat : ∀ (i : Nat) (ri : Rectangle), r.drawn[i]? = some ri →
        ∃ imd, images[i]? = some imd ∧
          ri = ⟨⟨sumWidths (images.take i), 0⟩,
            ⟨sumWidths (images.take i) + imd.width, imd.height⟩⟩ := by
      intro i ri hri
      obtain ⟨imd, hi⟩ := image_of_drawn r.drawn images hlen i ri hri
      obtain ⟨d1, d2⟩ := right_drawn_of_image images hpos hW c2 i imd hi
      rw [h4, d1, d2] at hri
      exact ⟨imd, hi, (Option.some.inj hri).symm⟩
    refine ⟨r, canvas, h1, h2, h3, hlen, ?_, ?_, ?_, ?_⟩
    · intro i imd hi
      rw [h4, placeOf_right]
      exact (right_drawn_of_image images hpos hW c2 i imd hi).1
    · intro i ri hri
      obtain ⟨imd, hi, rfl⟩ := hat i ri hri
      obtain ⟨b1, b2, b3, b4, b5, b6, b7, b8⟩ := placement_bounds images hpos i imd hi
      rw [h6]
      simp only [Rectangle.Empty, Rectangle.In, Bool.or_eq_false_iff, decide_eq_false_iff_not,
        Bool.and_eq_true, decide_eq_true_eq, Bool.if_true_left, Bool.or_eq_true,
        Bool.not_eq_true', Bool.decide_eq_true]
      refine ⟨⟨by omega, by omega⟩, ?_⟩
      right
      exact ⟨⟨⟨b4, b6⟩, le_refl _⟩, b7⟩
    · intro i j ri rj hij hri hrj
      obtain ⟨di, hi, rfl⟩ := hat i ri hri
      obtain ⟨dj, hj, rfl⟩ := hat j rj hrj
      have ho := (placement_order images hpos i j di hi hij).2
      simp only [Rectangle.Overlaps, Rectangle.Empty, Point.In, Bool.and_eq_false_iff,
        Bool.and_eq_true, decide_eq_true_eq, decide_eq_false_iff_not, not_and, not_lt]
      refine ⟨?_, ?_, ?_⟩
      · left; left; right; exact ho
      · left; left; left; right; exact ho
      · intro x y hxy1 hxy2; omega
    · intro hzb i imd ri hi hri
      obtain ⟨d1, d2⟩ := right_drawn_of_image images hpos hW c2 i imd hi
      rw [h4, d1, d2] at hri
      have hri2 := (Option.some.inj hri).symm
      subst hri2
      obtain ⟨b1, b2, b3, b4, b5, b6, b7, b8⟩ := placement_bounds images hpos i imd hi
      have := clip_whole canvas imd.img (sumWidths (images.take i)) 0 imd.width imd.height
        _ _ h6 (hzb imd (List.getElem?_mem hi)) b1 b2 b4 (le_refl _) b6 (by omega) c1 c2
      rw [zero_add] at this
      exact this

/-- C9, amended, at a 100x50 and a 30x20 image stacked bottom-wise: two
rectangles are painted, rows [0,100) and [100,130), each inside the canvas,
and they do not overlap. -/
theorem regions_disjoint_and_inside_witness :
    ∃ r canvas, (processImages plainEnv emptyWorld [imgA, imgC] "png" "bottom"
        "combined.png").made = some r ∧
      r.img = some canvas ∧
      r.drawn = [⟨⟨0, 0⟩, ⟨50, 100⟩⟩, ⟨⟨0, 100⟩, ⟨20, 130⟩⟩] ∧
      (Rectangle.mk ⟨0, 0⟩ ⟨50, 100⟩).In canvas.Rect = true ∧
      (Rectangle.mk ⟨0, 100⟩ ⟨20, 130⟩).In canvas.Rect = true ∧
      (Rectangle.mk ⟨0, 0⟩ ⟨50, 100⟩).Overlaps ⟨⟨0, 100⟩, ⟨20, 130⟩⟩ = false := by
  obtain ⟨r, canvas, h1, _, h3, _, _, h6, h7, _⟩ :=
    regions_disjoint_and_inside plainEnv emptyWorld [imgA, imgC] "png" "bottom"
      "combined.png" (by simp) positiveDims_sample paintable_sample_bottom
  have hd : (processImages plainEnv emptyWorld [imgA, imgC] "png" "bottom"
      "combined.png").made.map MakeResult.drawn
        = some [⟨⟨0, 0⟩, ⟨50, 100⟩⟩, ⟨⟨0, 100⟩, ⟨20, 130⟩⟩] := by decide
  rw [h1] at hd
  simp only [Option.map_some', Option.some.injEq] at hd
  refine ⟨r, canvas, h1, h3, hd, ?_, ?_, ?_⟩
  · exact (h6 0 _ (by rw [hd]; rfl)).2
  · exact (h6 1 _ (by rw [hd]; rfl)).2
  · exact (h7 0 1 _ _ (by decide) (by rw [hd]; rfl) (by rw [hd]; rfl)).1

theorem fits_bottom (images : List imageData) (hpos : PositiveDims images)
    (hzb : ZeroBased images) :
    Fits (getMaxDim images).2.1 (sumHeights images) images := by
  intro d hd
  obtain ⟨i, hi⟩ := List.mem_iff_getElem?.mp hd
  obtain ⟨b1, b2, b3, b4, b5, b6, b7, b8⟩ := placement_bounds images hpos i d hi
  exact ⟨b2, b1, b8, by omega, hzb d hd⟩

theorem fits_right (images : List imageData) (hpos : PositiveDims images)
    (hzb : ZeroBased images) :
    Fits (sumWidths images) (getMaxDim images).1 images := by
  intro d hd
  obtain ⟨i, hi⟩ := List.mem_iff_getElem?.mp hd
  obtain ⟨b1, b2, b3, b4, b5, b6, b7, b8⟩ := placement_bounds images hpos i d hi
  exact ⟨b2, b1, by omega, b7, hzb d hd⟩

theorem RGBAAt_zero_of_pix (p : RGBA) (x y : Int) (h : p.Pix x y = ColorRGBA.zero) :
    p.RGBAAt x y = ColorRGBA.zero := by
  unfold RGBA.RGBAAt
  split
  · exact h
  · rfl

theorem canvas_pixels_bottom (env : Env) (w : World) (images : List imageData)
    (format outfile : String) (hne : images ≠ []) (hpos : PositiveDims images)
    (hzb : ZeroBased images) (hH : sumHeights images < 2 ^ 63)
    (halloc : CanAlloc env (getMaxDim images).2.1 (sumHeights images)) :
    ∃ r canvas, (processImages env w images format "bottom" outfile).made = some r ∧
      r.panicked = false ∧ r.img = some canvas ∧
      (∀ (i : Nat) (imd : imageData), images[i]? = some imd →
        r.drawn[i]? = some (bottomPlace images i imd) ∧
        ∀ x y : Int, (Point.mk x y).In (bottomPlace images i imd) = true →
          canvas.RGBAAt x y = srcPixel (imd.img.At (x - (bottomPlace images i imd).Min.X)
            (y - (bottomPlace images i imd).Min.Y))) ∧
      (∀ x y : Int,
        (∀ (i : Nat) (imd : imageData), images[i]? = some imd →
          (Point.mk x y).In (bottomPlace images i imd) = false) →
        canvas.RGBAAt x y = ColorRGBA.zero) := by
  have hmp := getMaxDim_positive images hne hpos
  have hsh := sumHeights_pos images hne hpos
  obtain ⟨c1, c2⟩ := canAlloc_bounds env _ _ hmp.2 hsh halloc
  obtain ⟨r, canvas, h1, h2, h3, h4, h5, h6⟩ :=
    canvas_bottom env w images format outfile hne hpos hH halloc
  obtain ⟨la, lb⟩ := bottom_loop_pixels images (getMaxDim images).2.1 (sumHeights images)
    c1 c2
    ⟨⟨⟨⟨0, 0⟩, ⟨(getMaxDim images).2.1, sumHeights images⟩⟩, fun _ _ => ColorRGBA.zero⟩,
      0, 0, []⟩ rfl rfl (le_refl _) (fits_bottom images hpos hzb) (by simp)
  rw [← h5] at la lb
  simp only [zero_add] at la lb
  refine ⟨r, canvas, h1, h2, h3, ?_, ?_⟩
  · intro i imd hi
    obtain ⟨d1, d2⟩ := bottom_drawn_of_image images hpos hH c1 i imd hi
    refine ⟨by rw [h4]; exact d1, ?_⟩
    intro x y hin
    rw [d2] at hin ⊢
    obtain ⟨b1, b2, b3, b4, b5, b6, b7, b8⟩ := placement_bounds images hpos i imd hi
    simp only [Point.In, Bool.and_eq_true, decide_eq_true_eq] at hin
    obtain ⟨⟨⟨i1, i2⟩, i3⟩, i4⟩ := hin
    have hcan : (Point.mk x y).In canvas.Rect = true := by
      rw [h6]
      simp only [Point.In, Bool.and_eq_true, decide_eq_true_eq]
      exact ⟨⟨⟨i1, by omega⟩, by omega⟩, by omega⟩
    simp only [RGBA.RGBAAt, hcan, if_true, sub_zero]
    rw [la i imd hi x y i1 i2 i3 i4]
    exact overPixel_zero _
  · intro x y hout
    apply RGBAAt_zero_of_pix
    rw [lb x y]
    intro i imd hi hcon
    have := hout i imd hi
    rw [(bottom_drawn_of_image images hpos hH c1 i imd hi).2] at this
    simp only [Point.In, Bool.and_eq_false_iff, decide_eq_false_iff_not] at this
    omega

theorem canvas_pixels_right (env : Env) (w : World) (images : List imageData)
    (format outfile : String) (hne : images ≠ []) (hpos : PositiveDims images)
    (hzb : ZeroBased images) (hW : sumWidths images < 2 ^ 63)
    (halloc : CanAlloc env (sumWidths images) (getMaxDim images).1) :
    ∃ r canvas, (processImages env w images format "right" outfile).made = some r ∧
      r.panicked = false ∧ r.img = some canvas ∧
      (∀ (i : Nat) (imd : imageData), images[i]? = some imd →
        r.drawn[i]? = some (rightPlace images i imd) ∧
        ∀ x y : Int, (Point.mk x y).In (rightPlace images i imd) = true →
          canvas.RGBAAt x y = srcPixel (imd.img.At (x - (rightPlace images i imd).Min.X)
            (y - (rightPlace images i imd).Min.Y))) ∧
      (∀ x y : Int,
        (∀ (i : Nat) (imd : imageData), images[i]? = some imd →
          (Point.mk x y).In (rightPlace images i imd) = false) →
        canvas.RGBAAt x y = ColorRGBA.zero) := by
  have hmp := getMaxDim_positive images hne hpos
  have hsw := sumWidths_pos images hne hpos
  obtain ⟨c1, c2⟩ := canAlloc_bounds env _ _ hsw hmp.1 halloc
  obtain ⟨r, canvas, h1, h2, h3, h4, h5, h6⟩ :=
    canvas_right env w images format outfile hne hpos hW halloc
  obtain ⟨la, lb⟩ := right_loop_pixels images (sumWidths images) (getMaxDim images).1
    c1 c2
    ⟨⟨⟨⟨0, 0⟩, ⟨sumWidths images, (getMaxDim images).1⟩⟩, fun _ _ => ColorRGBA.zero⟩,
      0, 0, []⟩ rfl rfl (le_refl _) (fits_right images hpos hzb) (by simp)
  rw [← h5] at la lb
  simp only [zero_add] at la lb
  refine ⟨r, canvas, h1, h2, h3, ?_, ?_⟩
  · intro i imd hi
    obtain ⟨d1, d2⟩ := right_drawn_of_image images hpos hW c2 i imd hi
    refine ⟨by rw [h4]; exact d1, ?_⟩
    intro x y hin
    rw [d2] at hin ⊢
    obtain ⟨b1, b2, b3, b4, b5, b6, b7, b8⟩ := placement_bounds images hpos i imd hi
    simp only [Point.In, Bool.and_eq_true, decide_eq_true_eq] at hin
    obtain ⟨⟨⟨i1, i2⟩, i3⟩, i4⟩ := hin
    have hcan : (Point.mk x y).In canvas.Rect = true := by
      rw [h6]
      simp only [Point.In, Bool.and_eq_true, decide_eq_true_eq]
      exact ⟨⟨⟨by omega, by omega⟩, i3⟩, by omega⟩
    simp only [RGBA.RGBAAt, hcan, if_true, sub_zero]
    rw [la i imd hi x y i1 i2 i3 i4]
    exact overPixel_zero _
  · intro x y hout
    apply RGBAAt_zero_of_pix
    rw [lb x y]
    intro i imd hi hcon
    have := hout i imd hi
    rw [(right_drawn_of_image images hpos hW c2 i imd hi).2] at this
    simp only [Point.In, Bool.and_eq_false_iff, decide_eq_false_iff_not] at this
    omega

theorem zeroBased_sample : ZeroBased [imgA, imgC] := by
  intro d hd
  simp only [List.mem_cons, List.mem_singleton, List.not_mem_nil, or_false] at hd
  rcases hd with rfl | rfl <;> decide

/-! ## The claim about the pixels -/

/-- C3, as stated, fails: for three images of width 1 and heights
`2^63 - 1`, `2^63 - 1` and 3, the first two red and the third blue, stacked
bottom-wise, the cursor wraps around and the third image is painted over the
first: the canvas pixel at (0,0), which lies in the placement rectangle of
the first image, is blue, while the source pixel of the first image is
red. -/
theorem canvas_overwritten :
    [tall, tall, bar] ≠ [] ∧ PositiveDims [tall, tall, bar] ∧
    ((processImages roomyEnv emptyWorld [tall, tall, bar] "png" "bottom"
        "combined.png").made.bind MakeResult.img).map (fun c => c.RGBAAt 0 0)
      = some ⟨0, 0, 255, 255⟩ ∧
    ((processImages roomyEnv emptyWorld [tall, tall, bar] "png" "bottom"
        "combined.png").made.bind fun r => r.drawn[0]?)
      = some ⟨⟨0, 0⟩, ⟨1, 9223372036854775807⟩⟩ ∧
    (Point.mk 0 0).In ⟨⟨0, 0⟩, ⟨1, 9223372036854775807⟩⟩ = true ∧
    rgbaModel (tall.img.At 0 0) = ⟨255, 0, 0, 255⟩ := by
  refine ⟨by simp, ?_, by decide, by decide, by decide, by decide⟩
  intro d hd
  simp only [List.mem_cons, List.mem_singleton, List.not_mem_nil, or_false] at hd
  rcases hd with rfl | rfl | rfl <;> exact ⟨by decide, by decide⟩

/-- C3, amended: for every non-empty list of images with positive
dimensions whose pixel bounds are `(0,0)-(width_i,height_i)`, and for either
side, when the sum of the dimensions along that side is at most the largest
`int` and the canvas can be allocated, the canvas built by `makeImage` is a
plain copy.  Every image is painted at its place, and every canvas pixel
inside the place of the `i`-th image is the pixel that `draw.Src` would
store there for the source pixel at the same offset from the origin of the
place, although the code paints with `draw.Over`; for a source colour within
the documented range this is the colour converted by `color.RGBAModel`.
Every canvas pixel outside all places is the zero (transparent) pixel. -/
theorem canvas_is_copy (env : Env) (w : World) (images : List imageData)
    (format side outfile : String) (hne : images ≠ []) (hpos : PositiveDims images)
    (hzb : ZeroBased images) (hp : Paintable env images side) :
    ∃ r canvas, (processImages env w images format side outfile).made = some r ∧
      r.panicked = false ∧ r.img = some canvas ∧
      (∀ (i : Nat) (imd : imageData), images[i]? = some imd →
        r.drawn[i]? = some (placeOf side images i imd) ∧
        ∀ x y : Int, (Point.mk x y).In (placeOf side images i imd) = true →
          canvas.RGBAAt x y = srcPixel (imd.img.At (x - (placeOf side images i imd).Min.X)
            (y - (placeOf side images i imd).Min.Y)) ∧
          ((imd.img.At (x - (placeOf side images i imd).Min.X)
              (y - (placeOf side images i imd).Min.Y)).Valid →
            canvas.RGBAAt x y = rgbaModel (imd.img.At (x - (placeOf side images i imd).Min.X)
              (y - (placeOf side images i imd).Min.Y)))) ∧
      (∀ x y : Int,
        (∀ (i : Nat) (imd : imageData), images[i]? = some imd →
          (Point.mk x y).In (placeOf side images i imd) = false) →
        canvas.RGBAAt x y = ColorRGBA.zero) := by
  rcases hp with ⟨hs, hH, halloc⟩ | ⟨hs, hW, halloc⟩
  · subst hs
    obtain ⟨r, canvas, h1, h2, h3, h4, h5⟩ :=
      canvas_pixels_bottom env w images format outfile hne hpos hzb hH halloc
    refine ⟨r, canvas, h1, h2, h3, ?_, ?_⟩
    · intro i imd hi
      simp only [placeOf_bottom]
      refine ⟨(h4 i imd hi).1, ?_⟩
      intro x y hin
      have := (h4 i imd hi).2 x y hin
      exact ⟨this, fun hv => by rw [this, srcPixel_valid _ hv]⟩
    · intro x y hout
      exact h5 x y (fun i imd hi => by
        have := hout i imd hi
        rwa [placeOf_bottom] at this)
  · subst hs
    obtain ⟨r, canvas, h1, h2, h3, h4, h5⟩ :=
      canvas_pixels_right env w images format outfile hne hpos hzb hW halloc
    refine ⟨r, canvas, h1, h2, h3, ?_, ?_⟩
    · intro i imd hi
      simp only [placeOf_right]
      refine ⟨(h4 i imd hi).1, ?_⟩
      intro x y hin
      have := (h4 i imd hi).2 x y hin
      exact ⟨this, fun hv => by rw [this, srcPixel_valid _ hv]⟩
    · intro x y hout
      exact h5 x y (fun i imd hi => by
        have := hout i imd hi
        rwa [placeOf_right] at this)

/-- C3, amended, at a red 100x50 image and a blue 30x20 image (height x
width).  Stacked bottom-wise, the canvas is red at (10,10), blue at (10,110),
and transparent at (30,110), beside the narrower image.  Stacked
right-wise, it is red at (10,10), blue at (60,10), and transparent at
(60,50), below the shorter image. -/
theorem canvas_is_copy_witness :
    (∃ r canvas, (processImages plainEnv emptyWorld [imgA, imgC] "png" "bottom"
        "combined.png").made = some r ∧
      r.img = some canvas ∧
      canvas.RGBAAt 10 10 = ⟨255, 0, 0, 255⟩ ∧
      canvas.RGBAAt 10 110 = ⟨0, 0, 255, 255⟩ ∧
      canvas.RGBAAt 30 110 = ColorRGBA.zero) ∧
    (∃ r canvas, (processImages plainEnv emptyWorld [imgA, imgC] "png" "right"
        "combined.png").made = some r ∧
      r.img = some canvas ∧
      canvas.RGBAAt 10 10 = ⟨255, 0, 0, 255⟩ ∧
      canvas.RGBAAt 60 10 = ⟨0, 0, 255, 255⟩ ∧
      canvas.RGBAAt 60 50 = ColorRGBA.zero) := by
  constructor
  · obtain ⟨r, canvas, h1, _, h3, h4, h5⟩ := canvas_is_copy plainEnv emptyWorld [imgA, imgC]
      "png" "bottom" "combined.png" (by simp) positiveDims_sample zeroBased_sample
      paintable_sample_bottom
    refine ⟨r, canvas, h1, h3, ?_, ?_, ?_⟩
    · rw [((h4 0 imgA rfl).2 10 10 (by decide)).1]; decide
    · rw [((h4 1 imgC rfl).2 10 110 (by decide)).1]; decide
    · apply h5
      intro i imd hi
      match i, hi with
      | 0, hi =>
        simp only [List.getElem?_cons_zero, Option.some.injEq] at hi
        subst hi; decide
      | 1, hi =>
        simp only [List.getElem?_cons_succ, List.getElem?_cons_zero, Option.some.injEq] at hi
        subst hi; decide
      | (k + 2), hi => simp at hi
  · obtain ⟨r, canvas, h1, _, h3, h4, h5⟩ := canvas_is_copy plainEnv emptyWorld [imgA, imgC]
      "png" "right" "combined.png" (by simp) positiveDims_sample zeroBased_sample
      paintable_sample_right
    refine ⟨r, canvas, h1, h3, ?_, ?_, ?_⟩
    · rw [((h4 0 imgA rfl).2 10 10 (by decide)).1]; decide
    · rw [((h4 1 imgC rfl).2 60 10 (by decide)).1]; decide
    · apply h5
      intro i imd hi
      match i, hi with
      | 0, hi =>
        simp only [List.getElem?_cons_zero, Option.some.injEq] at hi
        subst hi; decide
      | 1, hi =>
        simp only [List.getElem?_cons_succ, List.getElem?_cons_zero, Option.some.injEq] at hi
        subst hi; decide
      | (k + 2), hi => simp at hi

end Gombine
